import Mathlib

/-!
Player (CS32 project 1): a shallow embedding of `Player.cpp`.

`Player.cpp` is embedded as pure functions on an explicit state.  A `Player`
points to its `Arena`; the arena owns the `History`.  Since the embedding has
no pointers, the player record carries the arena it points to, and a call that
records into the arena's history returns the player with the updated arena.

`Arena.h`, `History.h` and `globals.h` are not part of the available sources.
What `Player.cpp` uses from them is either modelled from the specification
(the arena's queries, the history log) or taken as a parameter
(`attemptMove`, the four direction constants).
-/

/-- Modelled from the spec: the `History` class (History.h is absent).  The
specification describes it as an ordered, append-only sequence of (row, col)
pairs; `entries` lists the recorded cells, oldest first. -/
structure History where
  entries : List (Int × Int)
deriving DecidableEq, Repr

/-- Modelled from the spec: `History::record(row, col)` (absent) appends the
pair to the log.  `Player.cpp` ignores whatever the call returns. -/
def History.record (h : History) (r c : Int) : History :=
  ⟨h.entries ++ [(r, c)]⟩

/-- Modelled from the spec: the `Arena` class (Arena.h is absent), reduced to
the members `Player.cpp` calls: `rows()`, `cols()`, `numberOfRobotsAt(r, c)`
and `history()`. -/
structure Arena where
  rows : Int
  cols : Int
  numberOfRobotsAt : Int → Int → Int
  history : History

/-- The direction constants of `globals.h` (absent), taken as parameters.  They
are the labels of the `switch` in `Player::move`. -/
structure Globals where
  NORTH : Int
  EAST : Int
  SOUTH : Int
  WEST : Int
deriving DecidableEq, Repr

/-- Case labels of one C++ `switch` are pairwise different. -/
def Globals.distinct (g : Globals) : Prop :=
  g.NORTH ≠ g.EAST ∧ g.NORTH ≠ g.SOUTH ∧ g.NORTH ≠ g.WEST ∧
  g.EAST ≠ g.SOUTH ∧ g.EAST ≠ g.WEST ∧ g.SOUTH ≠ g.WEST

instance (g : Globals) : Decidable g.distinct := by
  unfold Globals.distinct; infer_instance

/-- The type of `bool attemptMove(const Arena& a, int dir, int& r, int& c)`
(its body is absent): the returned flag together with the values the two
reference parameters hold when it returns. -/
abbrev AttemptMove := Arena → Int → Int → Int → Bool × Int × Int

/-- Modelled from the spec: the single-step offset of `attemptMove` (absent),
section 4.3: north is row-1, south row+1, east col+1, west col-1.  An integer
that is none of the four directions has no candidate cell. -/
def candidateCell (g : Globals) (dir r c : Int) : Option (Int × Int) :=
  if dir = g.NORTH then some (r - 1, c)
  else if dir = g.SOUTH then some (r + 1, c)
  else if dir = g.EAST then some (r, c + 1)
  else if dir = g.WEST then some (r, c - 1)
  else none

/-- Modelled from the spec: `attemptMove` (absent), section 4.3.  It computes
the candidate cell, checks it against the arena bounds `[1, rows] × [1, cols]`
and returns success with the candidate, or failure with the coordinates
unchanged.  The arena modelled here has no blocking terrain. -/
def attemptMove (g : Globals) : AttemptMove := fun a dir r c =>
  match candidateCell g dir r c with
  | some (r', c') =>
    if 1 ≤ r' ∧ r' ≤ a.rows ∧ 1 ≤ c' ∧ c' ≤ a.cols then (true, r', c') else (false, r, c)
  | none => (false, r, c)

/-- The data members of `Player`: `m_arena`, `m_row`, `m_col`, `m_dead`. -/
structure Player where
  m_arena : Arena
  m_row : Int
  m_col : Int
  m_dead : Bool

/-- The constructor `Player::Player(Arena* ap, int r, int c)`, named `create`
because the structure already owns the name `Player`.  A null `ap` is `none`.
The two `exit(1)` paths are `Except.error` carrying the line printed before
exiting. -/
def Player.create (ap : Option Arena) (r c : Int) : Except String Player :=
  match ap with
  | none => .error "***** The player must be created in some Arena!"
  | some a =>
    if r < 1 ∨ r > a.rows ∨ c < 1 ∨ c > a.cols then
      .error ("**** Player created with invalid coordinates (" ++ toString r
        ++ "," ++ toString c ++ ")!")
    else
      .ok { m_arena := a, m_row := r, m_col := c, m_dead := false }

/-- `int Player::row() const`. -/
def Player.row (p : Player) : Int := p.m_row

/-- `int Player::col() const`. -/
def Player.col (p : Player) : Int := p.m_col

/-- `bool Player::isDead() const`. -/
def Player.isDead (p : Player) : Bool := p.m_dead

/-- `void Player::setDead()`. -/
def Player.setDead (p : Player) : Player := { p with m_dead := true }

/-- The statement `m_arena->history().record(row(), col());`. -/
def Player.recordSpot (p : Player) : Player :=
  { p with m_arena := { p.m_arena with history := p.m_arena.history.record p.row p.col } }

/-- `string Player::stand()`. -/
def Player.stand (p : Player) : String × Player :=
  ("Player stands.", p.recordSpot)

/-- The `switch (dir)` of `Player::move`: the word appended to the message,
nothing when `dir` matches no label. -/
def Player.moveWord (g : Globals) (dir : Int) (msg : String) : String :=
  if dir = g.NORTH then msg ++ "north"
  else if dir = g.EAST then msg ++ "east"
  else if dir = g.SOUTH then msg ++ "south"
  else if dir = g.WEST then msg ++ "west"
  else msg

/-- `string Player::move(int dir)`.  `attemptMove` writes `m_row` and `m_col`
through its reference parameters whatever it returns, so both branches continue
from the player with the coordinates it left. -/
def Player.move (am : AttemptMove) (g : Globals) (p : Player) (dir : Int) :
    String × Player :=
  let res := am p.m_arena dir p.m_row p.m_col
  let p1 : Player := { p with m_row := res.2.1, m_col := res.2.2 }
  if res.1 then
    if p1.m_arena.numberOfRobotsAt p1.m_row p1.m_col > 0 then
      ("Player walked into a robot and died.", p1.setDead)
    else
      let msg := "Player moved "
      let msg := Player.moveWord g dir msg
      let msg := msg ++ "."
      (msg, p1.recordSpot)
  else
    ("Player couldn't move; player stands.", p1.recordSpot)

/-- One call made on the player by its caller: `stand()` or `move(dir)`. -/
inductive Turn where
  | stand : Turn
  | move (dir : Int) : Turn
deriving DecidableEq, Repr

/-- The call `t` applied to the player. -/
def Player.turn (am : AttemptMove) (g : Globals) (p : Player) : Turn → String × Player
  | .stand => p.stand
  | .move dir => p.move am g dir

/-- A sequence of calls applied in order; the player after the last one. -/
def Player.run (am : AttemptMove) (g : Globals) (p : Player) : List Turn → Player
  | [] => p
  | t :: ts => Player.run am g (p.turn am g t).2 ts

/-- The call `t` lands the player on a robot-occupied cell: it is a `move`,
`attemptMove` succeeds, and the arena counts a robot at the cell reached. -/
def Player.landsOnRobot (am : AttemptMove) (p : Player) : Turn → Bool
  | .stand => false
  | .move dir =>
    let res := am p.m_arena dir p.m_row p.m_col
    res.1 && decide (p.m_arena.numberOfRobotsAt res.2.1 res.2.2 > 0)

/-- No call of the sequence lands the player on a robot-occupied cell. -/
def Player.neverLandsOnRobot (am : AttemptMove) (g : Globals) (p : Player) : List Turn → Bool
  | [] => true
  | t :: ts => !p.landsOnRobot am t && Player.neverLandsOnRobot am g (p.turn am g t).2 ts

/-- The player's cell lies in `[1, rows] × [1, cols]` of its arena. -/
def Player.inBounds (p : Player) : Prop :=
  1 ≤ p.row ∧ p.row ≤ p.m_arena.rows ∧ 1 ≤ p.col ∧ p.col ≤ p.m_arena.cols

instance (p : Player) : Decidable p.inBounds := by
  unfold Player.inBounds; infer_instance

/-- The contract of `attemptMove` on one arena: called on a cell of the arena,
on success the coordinates it leaves are within the arena bounds, on failure
they are the ones it was given. -/
def AttemptMove.meetsContract (am : AttemptMove) : Prop :=
  ∀ (a : Arena) (dir r c : Int), 1 ≤ r → r ≤ a.rows → 1 ≤ c → c ≤ a.cols →
    ((am a dir r c).1 = true →
      1 ≤ (am a dir r c).2.1 ∧ (am a dir r c).2.1 ≤ a.rows ∧
      1 ≤ (am a dir r c).2.2 ∧ (am a dir r c).2.2 ≤ a.cols) ∧
    ((am a dir r c).1 = false → (am a dir r c).2.1 = r ∧ (am a dir r c).2.2 = c)

/-- The direction constants used in the concrete scenarios. -/
def globals0 : Globals := { NORTH := 0, EAST := 1, SOUTH := 2, WEST := 3 }

/-- A 5x5 arena without robots and with an empty history. -/
def arenaEmpty : Arena :=
  { rows := 5, cols := 5, numberOfRobotsAt := fun _ _ => 0, history := ⟨[]⟩ }

/-- A 5x5 arena with one robot, at (2,3), and an empty history. -/
def arenaRobot : Arena :=
  { rows := 5, cols := 5,
    numberOfRobotsAt := fun r c => if r = 2 ∧ c = 3 then 1 else 0,
    history := ⟨[]⟩ }

/-- The live player at (3,3) of the robot-free arena. -/
def playerCentre : Player :=
  { m_arena := arenaEmpty, m_row := 3, m_col := 3, m_dead := false }

/-- The live player at (3,3) of the arena with a robot at (2,3). -/
def playerBelowRobot : Player :=
  { m_arena := arenaRobot, m_row := 3, m_col := 3, m_dead := false }

/-- The live player at the corner (1,1) of the robot-free arena. -/
def playerCorner : Player :=
  { m_arena := arenaEmpty, m_row := 1, m_col := 1, m_dead := false }

/-- The player of `playerBelowRobot` after `move(NORTH)`: dead, at (2,3). -/
def playerKilled : Player :=
  (playerBelowRobot.move (attemptMove globals0) globals0 globals0.NORTH).2

/-!
Bag (CS32 homework 4): a shallow embedding of `bag.h`.

A `Bag` is a circular doubly-linked list with a dummy node.  The embedding
keeps the nodes as a list in `m_next` order, from `m_head->m_next` round to
`m_head->m_prev`; a `Node*` into the list is the position of the node, and the
position one past the last node stands for `m_head`, the dummy node.  The `int`
members are integers: every value the claims speak of is a count of items held
in one bag, and C++ leaves signed overflow undefined.  `ItemType` is any type
with a decidable equality, its `!=` being the negation of `==`.
-/

/-- The `struct Node` of `Bag`: `m_value` and `m_count`.  The links `m_next`
and `m_prev` are the order of the list the node sits in. -/
structure Bag.Node (α : Type) where
  m_value : α
  m_count : Int
deriving DecidableEq, Repr

/-- The data members of `Bag<ItemType>`.  `m_head` lists the nodes other than
the dummy node, in `m_next` order.  `m_current` is `none` for NULL and
`some i` for a pointer to the node at position `i`, the dummy node when `i` is
the length of the list. -/
structure Bag (α : Type) where
  m_head : List (Bag.Node α)
  m_uniqueSize : Int
  m_size : Int
  m_current : Option Nat
deriving DecidableEq, Repr

/-- The position that stands for the pointer `m_head` (the dummy node). -/
def Bag.headPos {α : Type} (b : Bag α) : Nat := b.m_head.length

/-- The constructor `Bag<ItemType>::Bag()`: an empty bag. -/
def Bag.new {α : Type} : Bag α :=
  { m_head := [], m_uniqueSize := 0, m_size := 0, m_current := none }

/-- `int Bag<ItemType>::size() const`. -/
def Bag.size {α : Type} (b : Bag α) : Int := b.m_size

/-- `int Bag<ItemType>::uniqueSize() const`. -/
def Bag.uniqueSize {α : Type} (b : Bag α) : Int := b.m_uniqueSize

/-- `bool Bag<ItemType>::empty() const`. -/
def Bag.empty {α : Type} (b : Bag α) : Bool := b.size == 0

/-- The loop of `Bag<ItemType>::find` from a node on: the number of steps
`p = p->m_next` taken until `p` is `m_head` or `p->m_value != value` fails. -/
def Bag.findFrom {α : Type} [DecidableEq α] (value : α) : List (Bag.Node α) → Nat
  | [] => 0
  | n :: rest => if n.m_value ≠ value then Bag.findFrom value rest + 1 else 0

/-- `Node* Bag<ItemType>::find(const ItemType& value) const`: the position of
the first node holding `value`, or `headPos` when there is none. -/
def Bag.find {α : Type} [DecidableEq α] (b : Bag α) (value : α) : Nat :=
  Bag.findFrom value b.m_head

/-- The expression `p->m_count` for a position `p`; 0 stands in where `p` is no
node of the list (the operations below never read it there). -/
def Bag.countAt {α : Type} (b : Bag α) (p : Nat) : Int :=
  match b.m_head[p]? with
  | some n => n.m_count
  | none => 0

/-- An assignment to `p->m_count`: the list with the count of the node at
position `p` replaced by `f` of it. -/
def Bag.modifyCount {α : Type} (f : Int → Int) : List (Bag.Node α) → Nat → List (Bag.Node α)
  | [], _ => []
  | n :: rest, 0 => { n with m_count := f n.m_count } :: rest
  | n :: rest, p + 1 => n :: Bag.modifyCount f rest p

/-- `bool Bag<ItemType>::contains(const ItemType& value) const`. -/
def Bag.contains {α : Type} [DecidableEq α] (b : Bag α) (value : α) : Bool :=
  decide (b.find value ≠ b.headPos)

/-- `int Bag<ItemType>::count(const ItemType& value) const`. -/
def Bag.count {α : Type} [DecidableEq α] (b : Bag α) (value : α) : Int :=
  let p := b.find value
  if p = b.headPos then 0 else b.countAt p

/-- `bool Bag<ItemType>::insert(const ItemType& value)`: the returned flag and
the bag afterwards. -/
def Bag.insert {α : Type} [DecidableEq α] (b : Bag α) (value : α) : Bool × Bag α :=
  let p := b.find value
  let b1 : Bag α :=
    if p ≠ b.headPos then
      { b with m_head := Bag.modifyCount (fun k => k + 1) b.m_head p }
    else
      { b with m_head := b.m_head ++ [{ m_value := value, m_count := 1 }],
               m_uniqueSize := b.m_uniqueSize + 1 }
  (true, { b1 with m_size := b1.m_size + 1, m_current := none })

/-- `int Bag<ItemType>::doErase(const ItemType& value, bool all)`: the returned
number and the bag afterwards. -/
def Bag.doErase {α : Type} [DecidableEq α] (b : Bag α) (value : α) (all : Bool) :
    Int × Bag α :=
  let p := b.find value
  if p = b.headPos then (0, b)
  else
    let nErased := if all then b.countAt p else 1
    let b1 : Bag α :=
      if !all && decide (b.countAt p > 1) then
        { b with m_head := Bag.modifyCount (fun k => k - 1) b.m_head p }
      else
        { b with m_head := b.m_head.eraseIdx p, m_uniqueSize := b.m_uniqueSize - 1 }
    (nErased, { b1 with m_size := b1.m_size - nErased, m_current := none })

/-- `int Bag<ItemType>::erase(const ItemType& value)`. -/
def Bag.erase {α : Type} [DecidableEq α] (b : Bag α) (value : α) : Int × Bag α :=
  b.doErase value false

/-- `int Bag<ItemType>::eraseAll(const ItemType& value)`. -/
def Bag.eraseAll {α : Type} [DecidableEq α] (b : Bag α) (value : α) : Int × Bag α :=
  b.doErase value true

/-- The copy constructor `Bag(const Bag& other)`: the nodes copied in order,
both sizes copied, `m_current` NULL. -/
def Bag.copy {α : Type} (other : Bag α) : Bag α :=
  { m_head := other.m_head.map (fun p => { m_value := p.m_value, m_count := p.m_count }),
    m_uniqueSize := other.m_uniqueSize, m_size := other.m_size, m_current := none }

/-- `void Bag<ItemType>::swap(Bag& other)`: this bag and the other one
afterwards. -/
def Bag.swap {α : Type} (b other : Bag α) : Bag α × Bag α :=
  ({ m_head := other.m_head, m_uniqueSize := other.m_uniqueSize, m_size := other.m_size,
     m_current := none },
   { m_head := b.m_head, m_uniqueSize := b.m_uniqueSize, m_size := b.m_size,
     m_current := none })

/-- `void Bag<ItemType>::start()`: `m_current = m_head->m_next`. -/
def Bag.start {α : Type} (b : Bag α) : Bag α := { b with m_current := some 0 }

/-- `void Bag<ItemType>::next()`: `m_current = m_current->m_next`.  The list is
circular, so the dummy node is followed by the node at position 0.  A NULL
`m_current` has no `m_next`; the bag is left as it is. -/
def Bag.next {α : Type} (b : Bag α) : Bag α :=
  match b.m_current with
  | some i => { b with m_current := some (if i = b.headPos then 0 else i + 1) }
  | none => b

/-- `bool Bag<ItemType>::ended() const`: `m_current == m_head`. -/
def Bag.ended {α : Type} (b : Bag α) : Bool := b.m_current == some b.headPos

/-- `const ItemType& Bag<ItemType>::currentValue() const`, `none` where
`m_current` is no node of the list. -/
def Bag.currentValue {α : Type} (b : Bag α) : Option α :=
  match b.m_current with
  | some i => (b.m_head[i]?).map (fun n => n.m_value)
  | none => none

/-- `int Bag<ItemType>::currentCount() const`, `none` where `m_current` is no
node of the list. -/
def Bag.currentCount {α : Type} (b : Bag α) : Option Int :=
  match b.m_current with
  | some i => (b.m_head[i]?).map (fun n => n.m_count)
  | none => none

/-- The loop `for (int k = 0; k < n; k++) res.insert(value);` for a bound `n`
that the body leaves alone: `times` is the number of passes, `n` when `n` is
positive and 0 otherwise. -/
def Bag.insertTimes {α : Type} [DecidableEq α] (res : Bag α) (value : α) : Nat → Bag α
  | 0 => res
  | times + 1 => Bag.insertTimes (res.insert value).2 value times

/-- The bags a program holds, by address.  Two references alias when they are
the same address. -/
abbrev BagStore (α : Type) := Nat → Bag α

/-- The store with the bag at address `i` replaced. -/
def BagStore.set {α : Type} (s : BagStore α) (i : Nat) (b : Bag α) : BagStore α :=
  fun j => if j = i then b else s j

/-- The loop `for ( ; !b2.ended(); b2.next())` of `combine`, run for at most
`fuel` passes on the store and the local bag `res`. -/
def combineLoop {α : Type} [DecidableEq α] (b2 : Nat) :
    Nat → BagStore α → Bag α → BagStore α × Bag α
  | 0, s, res => (s, res)
  | fuel + 1, s, res =>
    if (s b2).ended then (s, res)
    else
      match (s b2).currentValue, (s b2).currentCount with
      | some value, some n =>
        combineLoop b2 fuel (s.set b2 (s b2).next) (res.insertTimes value n.toNat)
      | _, _ => (s, res)

/-- `void combine(Bag& b1, Bag& b2, Bag& result)` on the bags at the addresses
`b1`, `b2`, `result`: the store afterwards.  The loop visits each node of `b2`
once, so as many passes as `b2` has nodes are allowed. -/
def combine {α : Type} [DecidableEq α] (s : BagStore α) (b1 b2 result : Nat) : BagStore α :=
  let res := Bag.copy (s b1)
  let s := s.set b2 (s b2).start
  let out := combineLoop b2 (s b2).m_head.length s res
  let s := out.1
  let res := out.2
  s.set result (Bag.swap (s result) res).1

/-- The loop `for ( ; !b1.ended(); b1.next())` of `subtract`, run for at most
`fuel` passes on the store and the local bag `res`. -/
def subtractLoop {α : Type} [DecidableEq α] (b1 b2 : Nat) :
    Nat → BagStore α → Bag α → BagStore α × Bag α
  | 0, s, res => (s, res)
  | fuel + 1, s, res =>
    if (s b1).ended then (s, res)
    else
      match (s b1).currentValue, (s b1).currentCount with
      | some value, some cnt =>
        let n := cnt - (s b2).count value
        subtractLoop b1 b2 fuel (s.set b1 (s b1).next) (res.insertTimes value n.toNat)
      | _, _ => (s, res)

/-- `void subtract(Bag& b1, Bag& b2, Bag& result)` on the bags at the addresses
`b1`, `b2`, `result`: the store afterwards. -/
def subtract {α : Type} [DecidableEq α] (s : BagStore α) (b1 b2 result : Nat) : BagStore α :=
  let res : Bag α := Bag.new
  let s := s.set b1 (s b1).start
  let out := subtractLoop b1 b2 (s b1).m_head.length s res
  let s := out.1
  let res := out.2
  s.set result (Bag.swap (s result) res).1

/-- The count the first node holding `value` carries, 0 when there is none:
what `count` reads, written as a recursion on the list. -/
def Bag.firstCount {α : Type} [DecidableEq α] (value : α) : List (Bag.Node α) → Int
  | [] => 0
  | n :: rest => if n.m_value = value then n.m_count else Bag.firstCount value rest

/-- The representation invariant of `Bag`: no two nodes hold the same value,
every node counts at least one item, `m_uniqueSize` is the number of nodes and
`m_size` the sum of their counts. -/
def Bag.wellFormed {α : Type} (b : Bag α) : Prop :=
  (b.m_head.map (fun n => n.m_value)).Nodup ∧
  (∀ n ∈ b.m_head, 1 ≤ n.m_count) ∧
  b.m_uniqueSize = b.m_head.length ∧
  b.m_size = (b.m_head.map (fun n => n.m_count)).sum

instance {α : Type} [DecidableEq α] (b : Bag α) : Decidable b.wellFormed := by
  unfold Bag.wellFormed; infer_instance

/-- The bag of the header comment: "cumin" three times and "turmeric" once,
built by four calls of `insert` on an empty bag. -/
def spiceBag : Bag String :=
  ((((Bag.new.insert "cumin").2.insert "cumin").2.insert "turmeric").2.insert "cumin").2

/-- A second bag: "turmeric" twice and "cumin" once. -/
def otherBag : Bag String :=
  (((Bag.new.insert "turmeric").2.insert "cumin").2.insert "turmeric").2

/-- A store with `spiceBag` at address 0, `otherBag` at address 1 and a bag
holding one "salt" at every other address. -/
def spiceStore : BagStore String := fun i =>
  if i = 0 then spiceBag else if i = 1 then otherBag else (Bag.new.insert "salt").2

/-! ## How each operation acts on the four data members -/

theorem Player.recordSpot_row (p : Player) : p.recordSpot.row = p.row := rfl

theorem Player.recordSpot_col (p : Player) : p.recordSpot.col = p.col := rfl

theorem Player.recordSpot_isDead (p : Player) : p.recordSpot.isDead = p.isDead := rfl

theorem Player.recordSpot_entries (p : Player) :
    p.recordSpot.m_arena.history.entries = p.m_arena.history.entries ++ [(p.row, p.col)] := rfl

theorem Player.recordSpot_rows (p : Player) : p.recordSpot.m_arena.rows = p.m_arena.rows := rfl

theorem Player.recordSpot_cols (p : Player) : p.recordSpot.m_arena.cols = p.m_arena.cols := rfl

/-- Whatever branch `move` takes, the coordinates afterwards are the ones
`attemptMove` left in `m_row` and `m_col`. -/
theorem Player.move_position (am : AttemptMove) (g : Globals) (p : Player) (dir : Int) :
    (p.move am g dir).2.row = (am p.m_arena dir p.m_row p.m_col).2.1 ∧
    (p.move am g dir).2.col = (am p.m_arena dir p.m_row p.m_col).2.2 := by
  unfold Player.move
  simp only []
  split
  · split <;> exact ⟨rfl, rfl⟩
  · exact ⟨rfl, rfl⟩

/-- The dead flag after `move`, computed from the flag before and the branch. -/
theorem Player.move_dead_flag (am : AttemptMove) (g : Globals) (p : Player) (dir : Int) :
    (p.move am g dir).2.isDead =
      (p.isDead || ((am p.m_arena dir p.m_row p.m_col).1 &&
        decide (p.m_arena.numberOfRobotsAt (am p.m_arena dir p.m_row p.m_col).2.1
          (am p.m_arena dir p.m_row p.m_col).2.2 > 0))) := by
  unfold Player.move
  simp only []
  split
  · rename_i h
    split
    · rename_i h2
      simp [Player.setDead, Player.isDead, h, h2]
    · rename_i h2
      simp [Player.recordSpot, Player.isDead, h, h2]
  · rename_i h
    simp [Player.recordSpot, Player.isDead, h]

/-- The arena dimensions are the same after `move`. -/
theorem Player.move_dims (am : AttemptMove) (g : Globals) (p : Player) (dir : Int) :
    (p.move am g dir).2.m_arena.rows = p.m_arena.rows ∧
    (p.move am g dir).2.m_arena.cols = p.m_arena.cols := by
  unfold Player.move
  simp only []
  split
  · split <;> exact ⟨rfl, rfl⟩
  · exact ⟨rfl, rfl⟩

/-- A call that does not land on a robot appends the cell the player is on
after the call. -/
theorem Player.turn_entries (am : AttemptMove) (g : Globals) (p : Player) (t : Turn)
    (h : p.landsOnRobot am t = false) :
    (p.turn am g t).2.m_arena.history.entries =
      p.m_arena.history.entries ++ [((p.turn am g t).2.row, (p.turn am g t).2.col)] := by
  cases t with
  | stand => rfl
  | move dir =>
    simp only [Player.landsOnRobot, Bool.and_eq_false_imp, decide_eq_false_iff_not] at h
    simp only [Player.turn, Player.move]
    split
    · rename_i hok
      rw [if_neg (h hok)]
      rfl
    · rfl

/-- The spec-modelled `attemptMove` either fails and returns the coordinates it
was given, or succeeds with a cell inside the arena. -/
theorem attemptMove_cases (g : Globals) (a : Arena) (dir r c : Int) :
    attemptMove g a dir r c = (false, r, c) ∨
    ∃ r' c', attemptMove g a dir r c = (true, r', c') ∧
      1 ≤ r' ∧ r' ≤ a.rows ∧ 1 ≤ c' ∧ c' ≤ a.cols := by
  unfold attemptMove
  cases candidateCell g dir r c with
  | none => exact Or.inl rfl
  | some cell =>
    obtain ⟨r', c'⟩ := cell
    by_cases h : 1 ≤ r' ∧ r' ≤ a.rows ∧ 1 ≤ c' ∧ c' ≤ a.cols
    · exact Or.inr ⟨r', c', if_pos h, h⟩
    · exact Or.inl (if_neg h)

/-- The spec-modelled `attemptMove` meets the contract. -/
theorem attemptMove_meetsContract (g : Globals) : (attemptMove g).meetsContract := by
  intro a dir r c _ _ _ _
  rcases attemptMove_cases g a dir r c with h | ⟨r', c', h, hb⟩
  · rw [h]
    exact ⟨fun ht => Bool.noConfusion ht, fun _ => ⟨rfl, rfl⟩⟩
  · rw [h]
    exact ⟨fun _ => hb, fun hf => Bool.noConfusion hf⟩

/-! ## The claims -/

/-- C1: after `move(dir)` the player is dead exactly when it was dead before the
call or `attemptMove` returned true and the arena counts a robot at the new
(row, col); a failed move and `stand()` leave the flag as it was; and none of
`stand()`, `move()`, `setDead()` takes a dead player back to alive. -/
theorem Player.dead_flag_transition (am : AttemptMove) (g : Globals) (p : Player) (dir : Int) :
    ((p.move am g dir).2.isDead = true ↔
      (p.isDead = true ∨
        ((am p.m_arena dir p.m_row p.m_col).1 = true ∧
          p.m_arena.numberOfRobotsAt (p.move am g dir).2.row (p.move am g dir).2.col > 0))) ∧
    ((am p.m_arena dir p.m_row p.m_col).1 = false → (p.move am g dir).2.isDead = p.isDead) ∧
    p.stand.2.isDead = p.isDead ∧
    (p.isDead = true →
      p.stand.2.isDead = true ∧ (p.move am g dir).2.isDead = true ∧ p.setDead.isDead = true) := by
  have hpos := Player.move_position am g p dir
  have hflag := Player.move_dead_flag am g p dir
  refine ⟨?_, ?_, rfl, ?_⟩
  · rw [hpos.1, hpos.2, hflag]
    simp
  · intro h
    rw [hflag, h]
    simp
  · intro h
    refine ⟨h, ?_, rfl⟩
    rw [hflag, h]
    rfl

/-- C2: for every player (a live one in particular) and direction, if
`attemptMove` succeeds and the arena counts at least one robot at the resulting
cell, then after `move(dir)` the player is at that cell, `isDead()` is true and
the message is "Player walked into a robot and died.". -/
theorem Player.move_onto_robot (am : AttemptMove) (g : Globals) (p : Player) (dir : Int)
    (hok : (am p.m_arena dir p.m_row p.m_col).1 = true)
    (hrobot : p.m_arena.numberOfRobotsAt (am p.m_arena dir p.m_row p.m_col).2.1
      (am p.m_arena dir p.m_row p.m_col).2.2 > 0) :
    (p.move am g dir).2.row = (am p.m_arena dir p.m_row p.m_col).2.1 ∧
    (p.move am g dir).2.col = (am p.m_arena dir p.m_row p.m_col).2.2 ∧
    (p.move am g dir).2.isDead = true ∧
    (p.move am g dir).1 = "Player walked into a robot and died." := by
  have hpos := Player.move_position am g p dir
  refine ⟨hpos.1, hpos.2, ?_, ?_⟩
  · rw [Player.move_dead_flag, hok]
    simp [hrobot]
  · unfold Player.move
    simp only []
    rw [if_pos hok, if_pos hrobot]

/-- C2 at the scenario of the claim: 5x5 arena, robot at (2,3), live player at
(3,3), `move(NORTH)`. -/
theorem Player.move_onto_robot_witness :
    playerBelowRobot.isDead = false ∧
    (playerBelowRobot.move (attemptMove globals0) globals0 globals0.NORTH).2.row = 2 ∧
    (playerBelowRobot.move (attemptMove globals0) globals0 globals0.NORTH).2.col = 3 ∧
    (playerBelowRobot.move (attemptMove globals0) globals0 globals0.NORTH).2.isDead = true ∧
    (playerBelowRobot.move (attemptMove globals0) globals0 globals0.NORTH).1 =
      "Player walked into a robot and died." :=
  ⟨rfl, Player.move_onto_robot (attemptMove globals0) globals0 playerBelowRobot globals0.NORTH
    (by decide) (by decide)⟩

/-- C3, refuted: the dead player at (2,3) of the 5x5 arena calls `move(NORTH)`
and ends at (1,3), with one more history entry: the call was neither rejected
nor a no-op. -/
theorem Player.move_dead_counterexample :
    playerKilled.isDead = true ∧
    (playerKilled.row, playerKilled.col) = (2, 3) ∧
    ((playerKilled.move (attemptMove globals0) globals0 globals0.NORTH).2.row,
      (playerKilled.move (attemptMove globals0) globals0 globals0.NORTH).2.col) = (1, 3) ∧
    (playerKilled.move (attemptMove globals0) globals0 globals0.NORTH).1 =
      "Player moved north." ∧
    playerKilled.m_arena.history.entries = [] ∧
    (playerKilled.move (attemptMove globals0) globals0 globals0.NORTH).2.m_arena.history.entries =
      [(1, 3)] := by
  decide

/-- C3, amended: `move` does not consult the dead flag.  On a dead player
`move(dir)` returns the same message and leaves the same row, column and
history as on the live player with the same arena and cell; the coordinates
afterwards are the ones `attemptMove` left, so they are unchanged exactly when
`attemptMove` leaves them unchanged; the player stays dead. -/
theorem Player.move_dead_as_live (am : AttemptMove) (g : Globals) (p : Player) (dir : Int)
    (hdead : p.isDead = true) :
    (p.move am g dir).1 = (Player.move am g { p with m_dead := false } dir).1 ∧
    (p.move am g dir).2.row = (Player.move am g { p with m_dead := false } dir).2.row ∧
    (p.move am g dir).2.col = (Player.move am g { p with m_dead := false } dir).2.col ∧
    (p.move am g dir).2.m_arena.history =
      (Player.move am g { p with m_dead := false } dir).2.m_arena.history ∧
    (p.move am g dir).2.row = (am p.m_arena dir p.m_row p.m_col).2.1 ∧
    (p.move am g dir).2.col = (am p.m_arena dir p.m_row p.m_col).2.2 ∧
    (p.move am g dir).2.isDead = true := by
  have hpos := Player.move_position am g p dir
  refine ⟨?_, ?_, ?_, ?_, hpos.1, hpos.2, ?_⟩
  · unfold Player.move
    simp only []
    split
    · split <;> rfl
    · rfl
  · unfold Player.move
    simp only []
    split
    · split <;> rfl
    · rfl
  · unfold Player.move
    simp only []
    split
    · split <;> rfl
    · rfl
  · unfold Player.move
    simp only []
    split
    · split <;> rfl
    · rfl
  · rw [Player.move_dead_flag, hdead]
    rfl

/-- C3 amended, at the dead player at (2,3): `move(NORTH)` does on it what it
does on a live player there. -/
theorem Player.move_dead_as_live_witness :
    playerKilled.isDead = true ∧
    (playerKilled.move (attemptMove globals0) globals0 globals0.NORTH).2.row = 1 ∧
    (playerKilled.move (attemptMove globals0) globals0 globals0.NORTH).2.col = 3 ∧
    (playerKilled.move (attemptMove globals0) globals0 globals0.NORTH).2.isDead = true :=
  have h := Player.move_dead_as_live (attemptMove globals0) globals0 playerKilled
    globals0.NORTH (by decide)
  ⟨by decide, h.2.2.2.2.1, h.2.2.2.2.2.1, h.2.2.2.2.2.2⟩

/-- C4: if `attemptMove` fails and leaves the coordinates as they were, then
`move(dir)` leaves row and col unchanged, appends exactly one history entry,
equal to that position, leaves `isDead()` unchanged and returns
"Player couldn't move; player stands.". -/
theorem Player.move_failed (am : AttemptMove) (g : Globals) (p : Player) (dir : Int)
    (hfail : am p.m_arena dir p.m_row p.m_col = (false, p.m_row, p.m_col)) :
    (p.move am g dir).2.row = p.row ∧
    (p.move am g dir).2.col = p.col ∧
    (p.move am g dir).2.m_arena.history.entries =
      p.m_arena.history.entries ++ [(p.row, p.col)] ∧
    (p.move am g dir).2.isDead = p.isDead ∧
    (p.move am g dir).1 = "Player couldn't move; player stands." := by
  unfold Player.move
  simp only [hfail]
  exact ⟨rfl, rfl, rfl, rfl, rfl⟩

/-- C4 at the scenario of the claim: player at (1,1) of a 5x5 arena, `move(WEST)`
points off the grid and the player stays at (1,1). -/
theorem Player.move_failed_witness :
    (playerCorner.move (attemptMove globals0) globals0 globals0.WEST).2.row = 1 ∧
    (playerCorner.move (attemptMove globals0) globals0 globals0.WEST).2.col = 1 ∧
    (playerCorner.move (attemptMove globals0) globals0 globals0.WEST).2.m_arena.history.entries =
      [(1, 1)] ∧
    (playerCorner.move (attemptMove globals0) globals0 globals0.WEST).2.isDead = false ∧
    (playerCorner.move (attemptMove globals0) globals0 globals0.WEST).1 =
      "Player couldn't move; player stands." :=
  Player.move_failed (attemptMove globals0) globals0 playerCorner globals0.WEST (by decide)

/-- C5: with pairwise different direction constants, if `attemptMove` succeeds
and the arena counts no robot at the resulting cell, then `move(dir)` puts the
player on that cell, appends exactly one history entry, equal to the new
position, and for `dir` one of NORTH, EAST, SOUTH, WEST returns
"Player moved north.", "Player moved east.", "Player moved south." or
"Player moved west." accordingly. -/
theorem Player.move_succeeded (am : AttemptMove) (g : Globals) (p : Player) (dir : Int)
    (hg : g.distinct)
    (hok : (am p.m_arena dir p.m_row p.m_col).1 = true)
    (hfree : ¬ p.m_arena.numberOfRobotsAt (am p.m_arena dir p.m_row p.m_col).2.1
      (am p.m_arena dir p.m_row p.m_col).2.2 > 0) :
    (p.move am g dir).2.row = (am p.m_arena dir p.m_row p.m_col).2.1 ∧
    (p.move am g dir).2.col = (am p.m_arena dir p.m_row p.m_col).2.2 ∧
    (p.move am g dir).2.m_arena.history.entries =
      p.m_arena.history.entries ++ [((p.move am g dir).2.row, (p.move am g dir).2.col)] ∧
    (dir = g.NORTH → (p.move am g dir).1 = "Player moved north.") ∧
    (dir = g.EAST → (p.move am g dir).1 = "Player moved east.") ∧
    (dir = g.SOUTH → (p.move am g dir).1 = "Player moved south.") ∧
    (dir = g.WEST → (p.move am g dir).1 = "Player moved west.") := by
  obtain ⟨hne, hns, hnw, hes, hew, hsw⟩ := hg
  have hmove : p.move am g dir =
      (Player.moveWord g dir "Player moved " ++ ".",
        Player.recordSpot { p with m_row := (am p.m_arena dir p.m_row p.m_col).2.1,
                                   m_col := (am p.m_arena dir p.m_row p.m_col).2.2 }) := by
    unfold Player.move
    simp only []
    rw [if_pos hok, if_neg hfree]
  rw [hmove]
  refine ⟨rfl, rfl, rfl, ?_, ?_, ?_, ?_⟩
  · intro h
    subst h
    simp only [Player.moveWord, if_true]
    rfl
  · intro h
    subst h
    simp only [Player.moveWord, if_neg hne.symm, if_true]
    rfl
  · intro h
    subst h
    simp only [Player.moveWord, if_neg hns.symm, if_neg hes.symm, if_true]
    rfl
  · intro h
    subst h
    simp only [Player.moveWord, if_neg hnw.symm, if_neg hew.symm, if_neg hsw.symm, if_true]
    rfl

/-- C5 at the scenario of the claim: 5x5 arena without robots, player at (3,3),
`move(NORTH)` gives (2,3), "Player moved north." and one new history entry. -/
theorem Player.move_succeeded_witness :
    (playerCentre.move (attemptMove globals0) globals0 globals0.NORTH).2.row = 2 ∧
    (playerCentre.move (attemptMove globals0) globals0 globals0.NORTH).2.col = 3 ∧
    (playerCentre.move (attemptMove globals0) globals0 globals0.NORTH).2.m_arena.history.entries =
      [] ++ [((2 : Int), (3 : Int))] ∧
    (playerCentre.move (attemptMove globals0) globals0 globals0.NORTH).1 =
      "Player moved north." :=
  have h := Player.move_succeeded (attemptMove globals0) globals0 playerCentre globals0.NORTH
    (by decide) (by decide) (by decide)
  ⟨h.1, h.2.1, h.2.2.1, h.2.2.2.1 rfl⟩

/-- C6: `stand()` leaves row, col and `isDead()` unchanged, appends exactly one
history entry, equal to the current (row, col), and returns "Player stands.". -/
theorem Player.stand_effect (p : Player) :
    p.stand.2.row = p.row ∧
    p.stand.2.col = p.col ∧
    p.stand.2.isDead = p.isDead ∧
    p.stand.2.m_arena.history.entries = p.m_arena.history.entries ++ [(p.row, p.col)] ∧
    p.stand.1 = "Player stands." :=
  ⟨rfl, rfl, rfl, rfl, rfl⟩

/-- C7, refuted: in the 5x5 arena with a robot at (2,3) the player at (3,3)
dies on `move(NORTH)`, and the history, empty before the call, is still empty
after it: the fatal position (2,3) was not logged. -/
theorem Player.move_death_counterexample :
    (playerBelowRobot.move (attemptMove globals0) globals0 globals0.NORTH).2.isDead = true ∧
    ((playerBelowRobot.move (attemptMove globals0) globals0 globals0.NORTH).2.row,
      (playerBelowRobot.move (attemptMove globals0) globals0 globals0.NORTH).2.col) = (2, 3) ∧
    playerBelowRobot.m_arena.history.entries = [] ∧
    (playerBelowRobot.move (attemptMove globals0) globals0 globals0.NORTH).2.m_arena.history.entries
      = [] := by
  decide

/-- C7, amended: when the player dies on a move (`attemptMove` succeeds and the
arena counts a robot at the cell reached), `move` returns from the death branch
without calling `record`: the history after the call is the history before
it. -/
theorem Player.move_death_history (am : AttemptMove) (g : Globals) (p : Player) (dir : Int)
    (hok : (am p.m_arena dir p.m_row p.m_col).1 = true)
    (hrobot : p.m_arena.numberOfRobotsAt (am p.m_arena dir p.m_row p.m_col).2.1
      (am p.m_arena dir p.m_row p.m_col).2.2 > 0) :
    (p.move am g dir).2.m_arena.history = p.m_arena.history := by
  unfold Player.move
  simp only []
  rw [if_pos hok, if_pos hrobot]
  rfl

/-- C7 amended, at the player below the robot: the history has no entry after
the fatal `move(NORTH)`. -/
theorem Player.move_death_history_witness :
    (playerBelowRobot.move (attemptMove globals0) globals0 globals0.NORTH).2.m_arena.history =
      ⟨[]⟩ :=
  Player.move_death_history (attemptMove globals0) globals0 playerBelowRobot globals0.NORTH
    (by decide) (by decide)

/-- C8: over a sequence of calls to `stand()` and `move()` none of which lands
the player on a robot-occupied cell, the history grows by exactly the number of
calls; each such call, from any state, appends exactly one entry (the cell the
player is on after it), and a call sets the position once: `stand()` leaves it,
`move(dir)` leaves what the one call of `attemptMove` wrote. -/
theorem Player.history_length_run (am : AttemptMove) (g : Globals) (p : Player)
    (ts : List Turn) (hsafe : Player.neverLandsOnRobot am g p ts = true) :
    (Player.run am g p ts).m_arena.history.entries.length =
      p.m_arena.history.entries.length + ts.length ∧
    (∀ (q : Player) (t : Turn), q.landsOnRobot am t = false →
      (q.turn am g t).2.m_arena.history.entries =
        q.m_arena.history.entries ++ [((q.turn am g t).2.row, (q.turn am g t).2.col)]) ∧
    (∀ q : Player, ((q.turn am g .stand).2.row, (q.turn am g .stand).2.col) = (q.row, q.col)) ∧
    (∀ (q : Player) (dir : Int),
      ((q.turn am g (.move dir)).2.row, (q.turn am g (.move dir)).2.col) =
        ((am q.m_arena dir q.m_row q.m_col).2.1, (am q.m_arena dir q.m_row q.m_col).2.2)) := by
  refine ⟨?_, fun q t h => Player.turn_entries am g q t h, fun _ => rfl, ?_⟩
  · induction ts generalizing p with
    | nil => rfl
    | cons t ts ih =>
      simp only [Player.neverLandsOnRobot, Bool.and_eq_true, Bool.not_eq_true'] at hsafe
      have hstep := Player.turn_entries am g p t hsafe.1
      have hrest := ih (p.turn am g t).2 hsafe.2
      simp only [Player.run, List.length_cons]
      rw [hrest, hstep, List.length_append, List.length_singleton]
      omega
  · intro q dir
    have h := Player.move_position am g q dir
    simp only [Player.turn, h.1, h.2]

/-- C8 on four calls from (3,3) in the robot-free 5x5 arena: north, stand, a
failed move at the top row after another north, and the history has four
entries. -/
theorem Player.history_length_run_witness :
    (Player.run (attemptMove globals0) globals0 playerCentre
      [.move 0, .stand, .move 0, .move 0]).m_arena.history.entries.length = 0 + 4 :=
  (Player.history_length_run (attemptMove globals0) globals0 playerCentre
    [.move 0, .stand, .move 0, .move 0] (by decide)).1

/-- C9: a successfully constructed player has `1 ≤ row ≤ rows` and
`1 ≤ col ≤ cols`, and so has the player after every sequence of `stand()` and
`move()` calls, when `attemptMove` meets its contract; the calls leave the
arena dimensions as they were. -/
theorem Player.inBounds_invariant (am : AttemptMove) (g : Globals) (ap : Option Arena)
    (r c : Int) (p : Player) (hc : am.meetsContract)
    (hp : Player.create ap r c = .ok p) (ts : List Turn) :
    p.inBounds ∧ (Player.run am g p ts).inBounds ∧
    (Player.run am g p ts).m_arena.rows = p.m_arena.rows ∧
    (Player.run am g p ts).m_arena.cols = p.m_arena.cols := by
  have hinit : p.inBounds := by
    unfold Player.create at hp
    cases ap with
    | none => simp at hp
    | some a =>
      simp only at hp
      split at hp
      · simp at hp
      · rename_i hcond
        injection hp with hp
        subst hp
        simp only [Player.inBounds, Player.row, Player.col]
        omega
  have hstep : ∀ (q : Player) (t : Turn), q.inBounds →
      (q.turn am g t).2.inBounds ∧ (q.turn am g t).2.m_arena.rows = q.m_arena.rows ∧
      (q.turn am g t).2.m_arena.cols = q.m_arena.cols := by
    intro q t hq
    cases t with
    | stand => exact ⟨hq, rfl, rfl⟩
    | move dir =>
      have hpos := Player.move_position am g q dir
      have hdim := Player.move_dims am g q dir
      obtain ⟨h1, h2, h3, h4⟩ := hq
      have hcon := hc q.m_arena dir q.m_row q.m_col h1 h2 h3 h4
      refine ⟨?_, hdim.1, hdim.2⟩
      simp only [Player.turn, Player.inBounds, hpos.1, hpos.2, hdim.1, hdim.2]
      cases hres : (am q.m_arena dir q.m_row q.m_col).1 with
      | true => exact hcon.1 hres
      | false =>
        have h := hcon.2 hres
        rw [h.1, h.2]
        exact ⟨h1, h2, h3, h4⟩
  refine ⟨hinit, ?_⟩
  clear hp
  induction ts generalizing p with
  | nil => exact ⟨hinit, rfl, rfl⟩
  | cons t ts ih =>
    have hs := hstep p t hinit
    have hr := ih (p.turn am g t).2 hs.1
    simp only [Player.run]
    exact ⟨hr.1, hr.2.1.trans hs.2.1, hr.2.2.trans hs.2.2⟩

/-- C9 on the player constructed at (1,1) of the 5x5 arena: after west, north,
east and a stand it is still inside the arena. -/
theorem Player.inBounds_invariant_witness :
    playerCorner.inBounds ∧
    (Player.run (attemptMove globals0) globals0 playerCorner
      [.move 3, .move 0, .move 1, .stand]).inBounds :=
  have h := Player.inBounds_invariant (attemptMove globals0) globals0 (some arenaEmpty) 1 1
    playerCorner (attemptMove_meetsContract globals0) rfl [.move 3, .move 0, .move 1, .stand]
  ⟨h.1, h.2.1⟩

/-- C10: the constructor fails fatally if and only if `ap` is null or `r < 1`
or `r > ap->rows()` or `c < 1` or `c > ap->cols()`; otherwise it yields the
player of arena `ap` with `row() = r`, `col() = c` and `isDead() = false`. -/
theorem Player.create_fails_iff (ap : Option Arena) (r c : Int) :
    ((∃ msg, Player.create ap r c = .error msg) ↔
      (ap = none ∨ ∃ a, ap = some a ∧ (r < 1 ∨ r > a.rows ∨ c < 1 ∨ c > a.cols))) ∧
    (∀ a, ap = some a → ¬ (r < 1 ∨ r > a.rows ∨ c < 1 ∨ c > a.cols) →
      ∃ p, Player.create ap r c = .ok p ∧
        p = { m_arena := a, m_row := r, m_col := c, m_dead := false } ∧
        p.row = r ∧ p.col = c ∧ p.isDead = false) := by
  cases ap with
  | none =>
    refine ⟨⟨fun _ => Or.inl rfl, fun _ => ⟨_, rfl⟩⟩, ?_⟩
    intro a h
    cases h
  | some a =>
    by_cases hcond : r < 1 ∨ r > a.rows ∨ c < 1 ∨ c > a.cols
    · refine ⟨⟨fun _ => Or.inr ⟨a, rfl, hcond⟩, fun _ => ?_⟩, ?_⟩
      · simp only [Player.create, if_pos hcond]
        exact ⟨_, rfl⟩
      · intro b hb hn
        cases hb
        exact absurd hcond hn
    · refine ⟨⟨fun h => ?_, fun h => ?_⟩, ?_⟩
      · obtain ⟨msg, hmsg⟩ := h
        simp only [Player.create, if_neg hcond] at hmsg
        cases hmsg
      · rcases h with h | ⟨b, hb, hbc⟩
        · cases h
        · cases hb
          exact absurd hbc hcond
      · intro b hb _
        cases hb
        refine ⟨⟨a, r, c, false⟩, ?_, rfl, rfl, rfl, rfl⟩
        simp only [Player.create, if_neg hcond]

/-! ## Bag: what `find`, `count` and `contains` read from the node list -/

theorem Bag.findFrom_le {α : Type} [DecidableEq α] (value : α) (l : List (Bag.Node α)) :
    Bag.findFrom value l ≤ l.length := by
  induction l with
  | nil => exact Nat.le_refl 0
  | cons n rest ih =>
    simp only [Bag.findFrom, List.length_cons]
    split <;> omega

/-- `find` stops at the dummy node exactly when no node holds the value. -/
theorem Bag.findFrom_eq_length {α : Type} [DecidableEq α] (value : α) (l : List (Bag.Node α)) :
    Bag.findFrom value l = l.length ↔ value ∉ l.map (fun n => n.m_value) := by
  induction l with
  | nil => simp [Bag.findFrom]
  | cons n rest ih =>
    simp only [Bag.findFrom, List.length_cons, List.map_cons, List.mem_cons, not_or]
    by_cases h : n.m_value = value
    · simp [h]
    · have h2 : ¬ value = n.m_value := fun e => h e.symm
      simp [h, h2, ih]

/-- The value `count` returns is the count of the first node holding the
value. -/
theorem Bag.count_eq_firstCount {α : Type} [DecidableEq α] (b : Bag α) (value : α) :
    b.count value = Bag.firstCount value b.m_head := by
  unfold Bag.count Bag.find Bag.headPos Bag.countAt
  simp only []
  induction b.m_head with
  | nil => simp [Bag.findFrom, Bag.firstCount]
  | cons n rest ih =>
    by_cases h : n.m_value = value
    · simp [Bag.findFrom, Bag.firstCount, h]
    · simp only [Bag.findFrom, Bag.firstCount, h, ne_eq, not_false_eq_true, if_true,
        List.length_cons, Nat.add_right_cancel_iff, List.getElem?_cons_succ, if_false]
      exact ih

theorem Bag.contains_iff {α : Type} [DecidableEq α] (b : Bag α) (value : α) :
    b.contains value = true ↔ value ∈ b.m_head.map (fun n => n.m_value) := by
  unfold Bag.contains Bag.find Bag.headPos
  rw [decide_eq_true_iff, ne_eq, Bag.findFrom_eq_length, not_not]

theorem Bag.firstCount_of_not_mem {α : Type} [DecidableEq α] (value : α)
    (l : List (Bag.Node α)) (h : value ∉ l.map (fun n => n.m_value)) :
    Bag.firstCount value l = 0 := by
  induction l with
  | nil => rfl
  | cons n rest ih =>
    simp only [List.map_cons, List.mem_cons, not_or] at h
    have h1 : ¬ n.m_value = value := fun e => h.1 e.symm
    simp only [Bag.firstCount, h1, if_false]
    exact ih h.2

theorem Bag.firstCount_pos_of_mem {α : Type} [DecidableEq α] (value : α)
    (l : List (Bag.Node α)) (hpos : ∀ n ∈ l, 1 ≤ n.m_count)
    (h : value ∈ l.map (fun n => n.m_value)) :
    1 ≤ Bag.firstCount value l := by
  induction l with
  | nil => simp at h
  | cons n rest ih =>
    by_cases h1 : n.m_value = value
    · simp only [Bag.firstCount, h1, if_true]
      exact hpos n (List.mem_cons_self n rest)
    · simp only [Bag.firstCount, h1, if_false]
      simp only [List.map_cons, List.mem_cons] at h
      rcases h with h | h
      · exact absurd h.symm h1
      · exact ih (fun m hm => hpos m (List.mem_cons_of_mem n hm)) h

/-! ## Bag: the node list after `insert` -/

/-- The node list `insert` leaves, as a recursion on the list. -/
theorem Bag.insert_nodes_cons {α : Type} [DecidableEq α] (value : α) (n : Bag.Node α)
    (rest : List (Bag.Node α)) :
    (if Bag.findFrom value (n :: rest) ≠ (n :: rest).length then
        Bag.modifyCount (fun k => k + 1) (n :: rest) (Bag.findFrom value (n :: rest))
      else (n :: rest) ++ [{ m_value := value, m_count := 1 }]) =
    if n.m_value = value then { n with m_count := n.m_count + 1 } :: rest
    else n :: (if Bag.findFrom value rest ≠ rest.length then
        Bag.modifyCount (fun k => k + 1) rest (Bag.findFrom value rest)
      else rest ++ [{ m_value := value, m_count := 1 }]) := by
  by_cases h : n.m_value = value
  · simp [Bag.findFrom, Bag.modifyCount, h]
  · by_cases h2 : Bag.findFrom value rest = rest.length
    · simp [Bag.findFrom, Bag.modifyCount, h, h2]
    · simp [Bag.findFrom, Bag.modifyCount, h, h2]

theorem Bag.insert_m_head {α : Type} [DecidableEq α] (b : Bag α) (value : α) :
    (b.insert value).2.m_head =
      if Bag.findFrom value b.m_head ≠ b.m_head.length then
        Bag.modifyCount (fun k => k + 1) b.m_head (Bag.findFrom value b.m_head)
      else b.m_head ++ [{ m_value := value, m_count := 1 }] := by
  unfold Bag.insert Bag.find Bag.headPos
  simp only []
  split <;> rfl

theorem Bag.insert_firstCount {α : Type} [DecidableEq α] (b : Bag α) (value w : α) :
    Bag.firstCount w (b.insert value).2.m_head =
      Bag.firstCount w b.m_head + (if value = w then 1 else 0) := by
  rw [Bag.insert_m_head]
  induction b.m_head with
  | nil =>
    by_cases h : value = w <;> simp [Bag.findFrom, Bag.firstCount, h]
  | cons n rest ih =>
    rw [Bag.insert_nodes_cons]
    by_cases h : n.m_value = value
    · by_cases h2 : value = w
      · subst h2
        simp [Bag.firstCount, h]
      · have h3 : ¬ n.m_value = w := fun e => h2 (h ▸ e)
        simp [Bag.firstCount, h, h2, h3]
    · rw [if_neg h]
      by_cases h3 : n.m_value = w
      · have h2 : ¬ value = w := fun e => h (e ▸ h3)
        simp [Bag.firstCount, h3, h2]
      · simp only [Bag.firstCount, h3, if_false]
        exact ih

theorem Bag.insert_values {α : Type} [DecidableEq α] (b : Bag α) (value : α) :
    (b.insert value).2.m_head.map (fun n => n.m_value) =
      if value ∈ b.m_head.map (fun n => n.m_value) then b.m_head.map (fun n => n.m_value)
      else b.m_head.map (fun n => n.m_value) ++ [value] := by
  rw [Bag.insert_m_head]
  induction b.m_head with
  | nil => simp [Bag.findFrom]
  | cons n rest ih =>
    rw [Bag.insert_nodes_cons]
    by_cases h : n.m_value = value
    · simp [h]
    · have h2 : ¬ value = n.m_value := fun e => h e.symm
      rw [if_neg h, List.map_cons, ih]
      by_cases h3 : value ∈ rest.map (fun n => n.m_value)
      · simp [h3]
      · simp [h3, h2]

theorem Bag.insert_count_sum {α : Type} [DecidableEq α] (b : Bag α) (value : α) :
    ((b.insert value).2.m_head.map (fun n => n.m_count)).sum =
      (b.m_head.map (fun n => n.m_count)).sum + 1 := by
  rw [Bag.insert_m_head]
  induction b.m_head with
  | nil => simp [Bag.findFrom]
  | cons n rest ih =>
    rw [Bag.insert_nodes_cons]
    by_cases h : n.m_value = value
    · simp only [h, if_true, List.map_cons, List.sum_cons]
      omega
    · rw [if_neg h, List.map_cons, List.sum_cons, ih, List.map_cons, List.sum_cons]
      omega

theorem Bag.insert_counts_pos {α : Type} [DecidableEq α] (b : Bag α) (value : α)
    (hpos : ∀ n ∈ b.m_head, 1 ≤ n.m_count) :
    ∀ n ∈ (b.insert value).2.m_head, 1 ≤ n.m_count := by
  rw [Bag.insert_m_head]
  revert hpos
  generalize b.m_head = l
  induction l with
  | nil => simp [Bag.findFrom]
  | cons n rest ih =>
    intro hpos
    rw [Bag.insert_nodes_cons]
    have hn := hpos n (List.mem_cons_self n rest)
    have hrest : ∀ m ∈ rest, 1 ≤ m.m_count := fun m hm => hpos m (List.mem_cons_of_mem n hm)
    by_cases h : n.m_value = value
    · rw [if_pos h]
      intro m hm
      rcases List.mem_cons.mp hm with e | e
      · subst e
        show 1 ≤ n.m_count + 1
        omega
      · exact hrest m e
    · rw [if_neg h]
      intro m hm
      rcases List.mem_cons.mp hm with e | e
      · subst e
        exact hn
      · exact ih hrest m e

theorem Bag.insert_length {α : Type} [DecidableEq α] (b : Bag α) (value : α) :
    ((b.insert value).2.m_head.length : Int) =
      b.m_head.length + (if b.contains value then 0 else 1) := by
  have h := congrArg List.length (Bag.insert_values b value)
  rw [List.length_map] at h
  rw [h]
  by_cases hc : b.contains value = true
  · rw [if_pos ((Bag.contains_iff b value).mp hc), hc]
    simp
  · rw [if_neg (fun hm => hc ((Bag.contains_iff b value).mpr hm))]
    simp [hc]

theorem Bag.insert_uniqueSize {α : Type} [DecidableEq α] (b : Bag α) (value : α) :
    (b.insert value).2.m_uniqueSize =
      b.m_uniqueSize + (if b.contains value then 0 else 1) := by
  unfold Bag.insert Bag.contains
  simp only []
  by_cases h : b.find value = b.headPos <;> simp [h]

theorem Bag.insert_size {α : Type} [DecidableEq α] (b : Bag α) (value : α) :
    (b.insert value).2.m_size = b.m_size + 1 := by
  unfold Bag.insert
  simp only []
  split <;> rfl

/-- The constructor builds a well-formed bag. -/
theorem Bag.new_wellFormed {α : Type} : (Bag.new : Bag α).wellFormed := by
  simp [Bag.wellFormed, Bag.new]

/-- `insert` keeps the representation invariant. -/
theorem Bag.insert_wellFormed {α : Type} [DecidableEq α] (b : Bag α) (value : α)
    (h : b.wellFormed) : (b.insert value).2.wellFormed := by
  obtain ⟨hnd, hpos, hu, hs⟩ := h
  refine ⟨?_, Bag.insert_counts_pos b value hpos, ?_, ?_⟩
  · rw [Bag.insert_values]
    split
    · exact hnd
    · rename_i hn
      exact List.Nodup.append hnd (List.nodup_singleton value)
        (by simpa [List.disjoint_singleton] using hn)
  · rw [Bag.insert_uniqueSize, Bag.insert_length, hu]
  · rw [Bag.insert_size, Bag.insert_count_sum, hs]

/-! ## Bag: the node list after `doErase` -/

theorem Bag.modifyCount_find_cons {α : Type} [DecidableEq α] (f : Int → Int) (value : α)
    (n : Bag.Node α) (rest : List (Bag.Node α)) :
    Bag.modifyCount f (n :: rest) (Bag.findFrom value (n :: rest)) =
      if n.m_value = value then { n with m_count := f n.m_count } :: rest
      else n :: Bag.modifyCount f rest (Bag.findFrom value rest) := by
  by_cases h : n.m_value = value <;> simp [Bag.findFrom, Bag.modifyCount, h]

theorem Bag.eraseIdx_find_cons {α : Type} [DecidableEq α] (value : α)
    (n : Bag.Node α) (rest : List (Bag.Node α)) :
    (n :: rest).eraseIdx (Bag.findFrom value (n :: rest)) =
      if n.m_value = value then rest
      else n :: rest.eraseIdx (Bag.findFrom value rest) := by
  by_cases h : n.m_value = value <;> simp [Bag.findFrom, List.eraseIdx, h]

/-- Where the value is found, `p->m_count` is the number `count` returns. -/
theorem Bag.countAt_find {α : Type} [DecidableEq α] (b : Bag α) (value : α)
    (h : b.find value ≠ b.headPos) :
    b.countAt (b.find value) = Bag.firstCount value b.m_head := by
  rw [← Bag.count_eq_firstCount]
  unfold Bag.count
  simp only []
  rw [if_neg h]

theorem Bag.firstCount_modify_find {α : Type} [DecidableEq α] (f : Int → Int) (value w : α)
    (l : List (Bag.Node α)) :
    Bag.firstCount w (Bag.modifyCount f l (Bag.findFrom value l)) =
      if value = w then (if value ∈ l.map (fun n => n.m_value) then f (Bag.firstCount w l) else 0)
      else Bag.firstCount w l := by
  induction l with
  | nil => simp [Bag.modifyCount, Bag.firstCount]
  | cons n rest ih =>
    rw [Bag.modifyCount_find_cons]
    by_cases h : n.m_value = value
    · by_cases h2 : value = w
      · subst h2
        simp [Bag.firstCount, h]
      · have h3 : ¬ n.m_value = w := fun e => h2 (h ▸ e)
        simp [Bag.firstCount, h, h2, h3]
    · have h' : ¬ value = n.m_value := fun e => h e.symm
      rw [if_neg h]
      by_cases h3 : n.m_value = w
      · have h2 : ¬ value = w := fun e => h (e ▸ h3)
        simp [Bag.firstCount, h3, h2]
      · simp only [Bag.firstCount, h3, if_false, ih, List.map_cons, List.mem_cons, h', false_or]

theorem Bag.firstCount_erase_find {α : Type} [DecidableEq α] (value w : α)
    (l : List (Bag.Node α)) (hnd : (l.map (fun n => n.m_value)).Nodup) :
    Bag.firstCount w (l.eraseIdx (Bag.findFrom value l)) =
      if value = w then 0 else Bag.firstCount w l := by
  induction l with
  | nil => simp [Bag.firstCount]
  | cons n rest ih =>
    rw [Bag.eraseIdx_find_cons]
    simp only [List.map_cons, List.nodup_cons] at hnd
    by_cases h : n.m_value = value
    · rw [if_pos h]
      by_cases h2 : value = w
      · subst h2
        rw [if_pos rfl]
        exact Bag.firstCount_of_not_mem value rest (h ▸ hnd.1)
      · have h3 : ¬ n.m_value = w := fun e => h2 (h ▸ e)
        simp [Bag.firstCount, h2, h3]
    · rw [if_neg h]
      by_cases h3 : n.m_value = w
      · have h2 : ¬ value = w := fun e => h (e ▸ h3)
        simp [Bag.firstCount, h3, h2]
      · simp only [Bag.firstCount, h3, if_false]
        exact ih hnd.2

theorem Bag.values_modifyCount {α : Type} (f : Int → Int) (l : List (Bag.Node α)) (p : Nat) :
    (Bag.modifyCount f l p).map (fun n => n.m_value) = l.map (fun n => n.m_value) := by
  induction l generalizing p with
  | nil => rfl
  | cons n rest ih =>
    cases p with
    | zero => rfl
    | succ p => simp [Bag.modifyCount, ih]

theorem Bag.length_modifyCount {α : Type} (f : Int → Int) (l : List (Bag.Node α)) (p : Nat) :
    (Bag.modifyCount f l p).length = l.length := by
  have h := congrArg List.length (Bag.values_modifyCount f l p)
  simpa using h

theorem Bag.values_erase_find {α : Type} [DecidableEq α] (value : α) (l : List (Bag.Node α)) :
    (l.eraseIdx (Bag.findFrom value l)).map (fun n => n.m_value) =
      (l.map (fun n => n.m_value)).erase value := by
  induction l with
  | nil => rfl
  | cons n rest ih =>
    rw [Bag.eraseIdx_find_cons]
    by_cases h : n.m_value = value
    · simp [h]
    · rw [if_neg h, List.map_cons, ih, List.map_cons, List.erase_cons_tail]
      simpa using h

theorem Bag.sum_modify_find {α : Type} [DecidableEq α] (f : Int → Int) (value : α)
    (l : List (Bag.Node α)) (h : value ∈ l.map (fun n => n.m_value)) :
    ((Bag.modifyCount f l (Bag.findFrom value l)).map (fun n => n.m_count)).sum =
      (l.map (fun n => n.m_count)).sum - Bag.firstCount value l + f (Bag.firstCount value l) := by
  induction l with
  | nil => simp at h
  | cons n rest ih =>
    rw [Bag.modifyCount_find_cons]
    by_cases h1 : n.m_value = value
    · simp only [h1, if_true, List.map_cons, List.sum_cons, Bag.firstCount]
      omega
    · simp only [List.map_cons, List.mem_cons] at h
      have hrest : value ∈ rest.map (fun n => n.m_value) := by
        rcases h with h | h
        · exact absurd h.symm h1
        · exact h
      simp only [h1, if_false, List.map_cons, List.sum_cons, Bag.firstCount, ih hrest]
      omega

theorem Bag.sum_erase_find {α : Type} [DecidableEq α] (value : α)
    (l : List (Bag.Node α)) (h : value ∈ l.map (fun n => n.m_value)) :
    ((l.eraseIdx (Bag.findFrom value l)).map (fun n => n.m_count)).sum =
      (l.map (fun n => n.m_count)).sum - Bag.firstCount value l := by
  induction l with
  | nil => simp at h
  | cons n rest ih =>
    rw [Bag.eraseIdx_find_cons]
    by_cases h1 : n.m_value = value
    · simp only [h1, if_true, List.map_cons, List.sum_cons, Bag.firstCount]
      omega
    · simp only [List.map_cons, List.mem_cons] at h
      have hrest : value ∈ rest.map (fun n => n.m_value) := by
        rcases h with h | h
        · exact absurd h.symm h1
        · exact h
      simp only [h1, if_false, List.map_cons, List.sum_cons, Bag.firstCount, ih hrest]
      omega

theorem Bag.pos_modify_find {α : Type} [DecidableEq α] (f : Int → Int) (value : α)
    (l : List (Bag.Node α)) (hpos : ∀ n ∈ l, 1 ≤ n.m_count)
    (hf : 1 ≤ f (Bag.firstCount value l)) :
    ∀ n ∈ Bag.modifyCount f l (Bag.findFrom value l), 1 ≤ n.m_count := by
  induction l with
  | nil => simp [Bag.modifyCount]
  | cons n rest ih =>
    rw [Bag.modifyCount_find_cons]
    have hn := hpos n (List.mem_cons_self n rest)
    have hrest : ∀ m ∈ rest, 1 ≤ m.m_count := fun m hm => hpos m (List.mem_cons_of_mem n hm)
    by_cases h : n.m_value = value
    · rw [if_pos h]
      simp only [Bag.firstCount, h, if_true] at hf
      intro m hm
      rcases List.mem_cons.mp hm with e | e
      · subst e
        exact hf
      · exact hrest m e
    · rw [if_neg h]
      simp only [Bag.firstCount, h, if_false] at hf
      intro m hm
      rcases List.mem_cons.mp hm with e | e
      · subst e
        exact hn
      · exact ih hrest hf m e

/-- What `doErase` returns and leaves, in the two cases of `find`. -/
theorem Bag.doErase_eq {α : Type} [DecidableEq α] (b : Bag α) (value : α) (all : Bool) :
    b.doErase value all =
      if value ∈ b.m_head.map (fun n => n.m_value) then
        if all = false ∧ Bag.firstCount value b.m_head > 1 then
          (1, { b with
            m_head := Bag.modifyCount (fun k => k - 1) b.m_head (Bag.findFrom value b.m_head),
            m_size := b.m_size - 1, m_current := none })
        else
          (if all then Bag.firstCount value b.m_head else 1,
            { b with
              m_head := b.m_head.eraseIdx (Bag.findFrom value b.m_head),
              m_uniqueSize := b.m_uniqueSize - 1,
              m_size := b.m_size - (if all then Bag.firstCount value b.m_head else 1),
              m_current := none })
      else (0, b) := by
  by_cases hmem : value ∈ b.m_head.map (fun n => n.m_value)
  · have hfound : b.find value ≠ b.headPos := by
      unfold Bag.find Bag.headPos
      rw [ne_eq, Bag.findFrom_eq_length, not_not]
      exact hmem
    have hc := Bag.countAt_find b value hfound
    rw [if_pos hmem]
    unfold Bag.doErase
    simp only []
    rw [if_neg hfound, hc]
    cases all with
    | true => simp [Bag.find]
    | false =>
      by_cases h1 : Bag.firstCount value b.m_head > 1
      · simp [Bag.find, h1]
      · simp [Bag.find, h1]
  · have hnot : b.find value = b.headPos := by
      unfold Bag.find Bag.headPos
      rw [Bag.findFrom_eq_length]
      exact hmem
    rw [if_neg hmem]
    unfold Bag.doErase
    simp only []
    rw [if_pos hnot]

/-- `doErase` keeps the representation invariant. -/
theorem Bag.doErase_wellFormed {α : Type} [DecidableEq α] (b : Bag α) (value : α) (all : Bool)
    (h : b.wellFormed) : (b.doErase value all).2.wellFormed := by
  obtain ⟨hnd, hpos, hu, hs⟩ := h
  rw [Bag.doErase_eq]
  by_cases hmem : value ∈ b.m_head.map (fun n => n.m_value)
  · rw [if_pos hmem]
    by_cases hc : all = false ∧ Bag.firstCount value b.m_head > 1
    · rw [if_pos hc]
      refine ⟨?_, ?_, ?_, ?_⟩
      · simp only [Bag.values_modifyCount]
        exact hnd
      · exact Bag.pos_modify_find _ value b.m_head hpos (by omega)
      · simp only [Bag.length_modifyCount]
        exact hu
      · simp only [Bag.sum_modify_find _ value b.m_head hmem, hs]
        omega
    · rw [if_neg hc]
      have hfc := Bag.firstCount_pos_of_mem value b.m_head hpos hmem
      have hlen : (b.m_head.eraseIdx (Bag.findFrom value b.m_head)).length + 1 =
          b.m_head.length := by
        have := congrArg List.length (Bag.values_erase_find value b.m_head)
        rw [List.length_map, List.length_erase_of_mem hmem, List.length_map] at this
        have hl : 0 < b.m_head.length := by
          have := List.length_pos_of_mem hmem
          simpa using this
        omega
      refine ⟨?_, ?_, ?_, ?_⟩
      · simp only [Bag.values_erase_find]
        exact hnd.erase value
      · intro n hn
        exact hpos n (List.eraseIdx_subset _ _ hn)
      · simp only [hu]
        omega
      · simp only [Bag.sum_erase_find value b.m_head hmem, hs]
        cases all with
        | true => simp
        | false =>
          have : Bag.firstCount value b.m_head = 1 := by
            have : ¬ Bag.firstCount value b.m_head > 1 := fun h => hc ⟨rfl, h⟩
            omega
          simp [this]
  · rw [if_neg hmem]
    exact ⟨hnd, hpos, hu, hs⟩

/-! ## Bag: repeated `insert` and the two loops -/

theorem Bag.insertTimes_firstCount {α : Type} [DecidableEq α] (res : Bag α) (value w : α)
    (times : Nat) :
    Bag.firstCount w (res.insertTimes value times).m_head =
      Bag.firstCount w res.m_head + (if value = w then (times : Int) else 0) := by
  induction times generalizing res with
  | zero => simp [Bag.insertTimes]
  | succ k ih =>
    rw [Bag.insertTimes, ih, Bag.insert_firstCount]
    by_cases h : value = w
    · simp only [h, if_true, Nat.cast_succ]
      omega
    · simp [h]

theorem Bag.insertTimes_size {α : Type} [DecidableEq α] (res : Bag α) (value : α)
    (times : Nat) :
    (res.insertTimes value times).m_size = res.m_size + times := by
  induction times generalizing res with
  | zero => simp [Bag.insertTimes]
  | succ k ih =>
    rw [Bag.insertTimes, ih, Bag.insert_size, Nat.cast_succ]
    omega

theorem Bag.insertTimes_mem {α : Type} [DecidableEq α] (res : Bag α) (value w : α)
    (times : Nat) :
    w ∈ (res.insertTimes value times).m_head.map (fun n => n.m_value) ↔
      w ∈ res.m_head.map (fun n => n.m_value) ∨ (value = w ∧ 0 < times) := by
  induction times generalizing res with
  | zero => simp [Bag.insertTimes]
  | succ k ih =>
    rw [Bag.insertTimes, ih, Bag.insert_values]
    by_cases hv : value ∈ res.m_head.map (fun n => n.m_value)
    · rw [if_pos hv]
      constructor
      · rintro (h | ⟨h, _⟩)
        · exact Or.inl h
        · exact Or.inr ⟨h, Nat.succ_pos k⟩
      · rintro (h | ⟨h, _⟩)
        · exact Or.inl h
        · exact Or.inl (h ▸ hv)
    · rw [if_neg hv]
      constructor
      · rintro (h | ⟨h, _⟩)
        · rcases List.mem_append.mp h with h | h
          · exact Or.inl h
          · exact Or.inr ⟨(List.mem_singleton.mp h).symm, Nat.succ_pos k⟩
        · exact Or.inr ⟨h, Nat.succ_pos k⟩
      · rintro (h | ⟨h, _⟩)
        · exact Or.inl (List.mem_append.mpr (Or.inl h))
        · exact Or.inl (List.mem_append.mpr (Or.inr (List.mem_singleton.mpr h.symm)))

theorem Bag.insertTimes_wellFormed {α : Type} [DecidableEq α] (res : Bag α) (value : α)
    (times : Nat) (h : res.wellFormed) : (res.insertTimes value times).wellFormed := by
  induction times generalizing res with
  | zero => exact h
  | succ k ih => exact ih _ (Bag.insert_wellFormed res value h)

/-- The count of `w` after a pass over the nodes `l` that inserts the value of
each node `g value count` times, when no two nodes of `l` hold the same
value. -/
theorem Bag.pour_firstCount {α : Type} [DecidableEq α] (g : α → Int → Nat) (w : α)
    (l : List (Bag.Node α)) (hnd : (l.map (fun n => n.m_value)).Nodup) (res : Bag α) :
    Bag.firstCount w
        (l.foldl (fun r n => r.insertTimes n.m_value (g n.m_value n.m_count)) res).m_head =
      Bag.firstCount w res.m_head +
        (if w ∈ l.map (fun n => n.m_value) then (g w (Bag.firstCount w l) : Int) else 0) := by
  induction l generalizing res with
  | nil => simp
  | cons n rest ih =>
    simp only [List.map_cons, List.nodup_cons] at hnd
    rw [List.foldl_cons, ih hnd.2, Bag.insertTimes_firstCount]
    by_cases h : n.m_value = w
    · subst h
      simp [Bag.firstCount, hnd.1]
    · have h' : ¬ w = n.m_value := fun e => h e.symm
      simp [Bag.firstCount, h, h']

theorem Bag.pour_mem {α : Type} [DecidableEq α] (g : α → Int → Nat) (w : α)
    (l : List (Bag.Node α)) (hnd : (l.map (fun n => n.m_value)).Nodup) (res : Bag α) :
    w ∈ (l.foldl (fun r n => r.insertTimes n.m_value (g n.m_value n.m_count)) res).m_head.map
        (fun n => n.m_value) ↔
      w ∈ res.m_head.map (fun n => n.m_value) ∨
        (w ∈ l.map (fun n => n.m_value) ∧ 0 < g w (Bag.firstCount w l)) := by
  induction l generalizing res with
  | nil => simp
  | cons n rest ih =>
    simp only [List.map_cons, List.nodup_cons] at hnd
    rw [List.foldl_cons, ih hnd.2, Bag.insertTimes_mem]
    by_cases h : n.m_value = w
    · subst h
      simp [Bag.firstCount, hnd.1]
    · have h' : ¬ w = n.m_value := fun e => h e.symm
      simp [Bag.firstCount, h, h']

theorem Bag.pour_size {α : Type} [DecidableEq α] (g : α → Int → Nat)
    (l : List (Bag.Node α)) (res : Bag α) :
    (l.foldl (fun r n => r.insertTimes n.m_value (g n.m_value n.m_count)) res).m_size =
      res.m_size + (l.map (fun n => (g n.m_value n.m_count : Int))).sum := by
  induction l generalizing res with
  | nil => simp
  | cons n rest ih =>
    rw [List.foldl_cons, ih, Bag.insertTimes_size, List.map_cons, List.sum_cons]
    omega

theorem Bag.pour_wellFormed {α : Type} [DecidableEq α] (g : α → Int → Nat)
    (l : List (Bag.Node α)) (res : Bag α) (h : res.wellFormed) :
    (l.foldl (fun r n => r.insertTimes n.m_value (g n.m_value n.m_count)) res).wellFormed := by
  induction l generalizing res with
  | nil => exact h
  | cons n rest ih =>
    rw [List.foldl_cons]
    exact ih _ (Bag.insertTimes_wellFormed res _ _ h)

theorem BagStore.set_same {α : Type} (s : BagStore α) (i : Nat) (b : Bag α) :
    (s.set i b) i = b := by
  simp [BagStore.set]

theorem BagStore.set_set {α : Type} (s : BagStore α) (i : Nat) (b c : Bag α) :
    (s.set i b).set i c = s.set i c := by
  funext j
  by_cases h : j = i <;> simp [BagStore.set, h]

theorem BagStore.set_self {α : Type} (s : BagStore α) (i : Nat) (b : Bag α) (h : s i = b) :
    s.set i b = s := by
  funext j
  by_cases hj : j = i
  · subst hj
    simp [BagStore.set, h]
  · simp [BagStore.set, hj]

/-- The loop of `combine`, started with `m_current` at position `i` of `b2`
and with enough passes allowed for the nodes left, ends with `m_current` at
the dummy node and has inserted, for each node from `i` on, its value as many
times as its count. -/
theorem combineLoop_eq {α : Type} [DecidableEq α] (b2 : Nat) (b : Bag α) (fuel : Nat) :
    ∀ (i : Nat) (s : BagStore α) (res : Bag α),
      s b2 = { b with m_current := some i } → i ≤ b.m_head.length →
      b.m_head.length - i ≤ fuel →
      combineLoop b2 fuel s res =
        (s.set b2 { b with m_current := some b.m_head.length },
          (b.m_head.drop i).foldl
            (fun r n => r.insertTimes n.m_value ((fun _ c => c.toNat) n.m_value n.m_count))
            res) := by
  induction fuel with
  | zero =>
    intro i s res hs hi hf
    have hil : i = b.m_head.length := by omega
    subst hil
    rw [BagStore.set_self s b2 _ hs]
    simp [combineLoop]
  | succ fuel ih =>
    intro i s res hs hi hf
    by_cases hil : i = b.m_head.length
    · subst hil
      rw [BagStore.set_self s b2 _ hs]
      simp [combineLoop, hs, Bag.ended, Bag.headPos]
    · have hlt : i < b.m_head.length := by omega
      have hget : b.m_head[i]? = some (b.m_head[i]) := List.getElem?_eq_getElem hlt
      have hnot : (s b2).ended = false := by
        simp [hs, Bag.ended, Bag.headPos, hil]
      have hnext : (s b2).next = { b with m_current := some (i + 1) } := by
        simp [hs, Bag.next, Bag.headPos, hil]
      have hval : (s b2).currentValue = some (b.m_head[i]).m_value := by
        simp [hs, Bag.currentValue, hget]
      have hcnt : (s b2).currentCount = some (b.m_head[i]).m_count := by
        simp [hs, Bag.currentCount, hget]
      rw [combineLoop, hnot, hval, hcnt, hnext]
      simp only [Bool.false_eq_true, if_false]
      rw [ih (i + 1) _ _ (BagStore.set_same s b2 _) (by omega) (by omega), BagStore.set_set,
        List.drop_eq_getElem_cons hlt, List.foldl_cons]

/-- The loop of `subtract`, started with `m_current` at position `i` of `b1`
and with enough passes allowed for the nodes left, ends with `m_current` at
the dummy node and has inserted, for each node from `i` on, its value as many
times as its count exceeds the count of that value in `b2`. -/
theorem subtractLoop_eq {α : Type} [DecidableEq α] (b1 b2 : Nat) (b : Bag α)
    (nodes2 : List (Bag.Node α)) (fuel : Nat) :
    ∀ (i : Nat) (s : BagStore α) (res : Bag α),
      s b1 = { b with m_current := some i } → (s b2).m_head = nodes2 →
      i ≤ b.m_head.length → b.m_head.length - i ≤ fuel →
      subtractLoop b1 b2 fuel s res =
        (s.set b1 { b with m_current := some b.m_head.length },
          (b.m_head.drop i).foldl
            (fun r n => r.insertTimes n.m_value
              ((fun v c => (c - Bag.firstCount v nodes2).toNat) n.m_value n.m_count))
            res) := by
  induction fuel with
  | zero =>
    intro i s res hs _ hi hf
    have hil : i = b.m_head.length := by omega
    subst hil
    rw [BagStore.set_self s b1 _ hs]
    simp [subtractLoop]
  | succ fuel ih =>
    intro i s res hs h2 hi hf
    by_cases hil : i = b.m_head.length
    · subst hil
      rw [BagStore.set_self s b1 _ hs]
      simp [subtractLoop, hs, Bag.ended, Bag.headPos]
    · have hlt : i < b.m_head.length := by omega
      have hget : b.m_head[i]? = some (b.m_head[i]) := List.getElem?_eq_getElem hlt
      have hnot : (s b1).ended = false := by
        simp [hs, Bag.ended, Bag.headPos, hil]
      have hnext : (s b1).next = { b with m_current := some (i + 1) } := by
        simp [hs, Bag.next, Bag.headPos, hil]
      have hval : (s b1).currentValue = some (b.m_head[i]).m_value := by
        simp [hs, Bag.currentValue, hget]
      have hcnt : (s b1).currentCount = some (b.m_head[i]).m_count := by
        simp [hs, Bag.currentCount, hget]
      have h2' : ((s.set b1 { b with m_current := some (i + 1) }) b2).m_head = nodes2 := by
        by_cases hb : b2 = b1
        · subst hb
          rw [BagStore.set_same]
          rw [hs] at h2
          exact h2
        · simp [BagStore.set, hb, h2]
      rw [subtractLoop, hnot, hval, hcnt, hnext]
      simp only [Bool.false_eq_true, if_false]
      rw [ih (i + 1) _ _ (BagStore.set_same s b1 _) h2' (by omega) (by omega),
        BagStore.set_set, List.drop_eq_getElem_cons hlt, List.foldl_cons,
        Bag.count_eq_firstCount, h2]

theorem Bag.copy_m_head {α : Type} (b : Bag α) : (Bag.copy b).m_head = b.m_head := by
  unfold Bag.copy
  simp

/-- The bag `combine` leaves at `result`: the copy of `b1` with, for each node
of `b2`, its value inserted as many times as its count; as many passes as `b2`
has nodes bring the loop to its end. -/
theorem combine_result {α : Type} [DecidableEq α] (s : BagStore α) (b1 b2 result : Nat) :
    ((combine s b1 b2 result) result).m_head =
      ((s b2).m_head.foldl
        (fun r n => r.insertTimes n.m_value ((fun _ c => c.toNat) n.m_value n.m_count))
        (Bag.copy (s b1))).m_head ∧
    ((combine s b1 b2 result) result).m_size =
      ((s b2).m_head.foldl
        (fun r n => r.insertTimes n.m_value ((fun _ c => c.toNat) n.m_value n.m_count))
        (Bag.copy (s b1))).m_size := by
  have hstart : (s.set b2 (s b2).start) b2 = { s b2 with m_current := some 0 } :=
    BagStore.set_same s b2 _
  have hlen : ((s.set b2 (s b2).start) b2).m_head.length = (s b2).m_head.length := by
    rw [hstart]
  have hloop := combineLoop_eq b2 (s b2) (s b2).m_head.length 0 (s.set b2 (s b2).start)
    (Bag.copy (s b1)) hstart (Nat.zero_le _) (by omega)
  unfold combine
  simp only []
  rw [hlen, hloop, BagStore.set_same, List.drop_zero]
  exact ⟨rfl, rfl⟩

/-- The bag `subtract` leaves at `result`: an empty bag with, for each node of
`b1`, its value inserted as many times as its count exceeds the count of that
value in `b2`. -/
theorem subtract_result {α : Type} [DecidableEq α] (s : BagStore α) (b1 b2 result : Nat) :
    ((subtract s b1 b2 result) result).m_head =
      ((s b1).m_head.foldl
        (fun r n => r.insertTimes n.m_value
          ((fun v c => (c - Bag.firstCount v (s b2).m_head).toNat) n.m_value n.m_count))
        (Bag.new : Bag α)).m_head := by
  have hstart : (s.set b1 (s b1).start) b1 = { s b1 with m_current := some 0 } :=
    BagStore.set_same s b1 _
  have hlen : ((s.set b1 (s b1).start) b1).m_head.length = (s b1).m_head.length := by
    rw [hstart]
  have h2 : ((s.set b1 (s b1).start) b2).m_head = (s b2).m_head := by
    by_cases hb : b2 = b1
    · subst hb
      rw [hstart]
    · simp [BagStore.set, hb]
  have hloop := subtractLoop_eq b1 b2 (s b1) (s b2).m_head (s b1).m_head.length 0
    (s.set b1 (s b1).start) Bag.new hstart h2 (Nat.zero_le _) (by omega)
  unfold subtract
  simp only []
  rw [hlen, hloop, BagStore.set_same, List.drop_zero]
  rfl

theorem Bag.firstCount_nonneg {α : Type} [DecidableEq α] (value : α) (b : Bag α)
    (h : b.wellFormed) : 0 ≤ Bag.firstCount value b.m_head := by
  by_cases hm : value ∈ b.m_head.map (fun n => n.m_value)
  · have := Bag.firstCount_pos_of_mem value b.m_head h.2.1 hm
    omega
  · rw [Bag.firstCount_of_not_mem value b.m_head hm]

theorem Bag.sum_toNat_counts {α : Type} (l : List (Bag.Node α))
    (hpos : ∀ n ∈ l, 1 ≤ n.m_count) :
    (l.map (fun n => ((n.m_count.toNat : Nat) : Int))).sum = (l.map (fun n => n.m_count)).sum := by
  induction l with
  | nil => rfl
  | cons n rest ih =>
    have hn := hpos n (List.mem_cons_self n rest)
    rw [List.map_cons, List.sum_cons, List.map_cons, List.sum_cons,
      ih (fun m hm => hpos m (List.mem_cons_of_mem n hm)), Int.toNat_of_nonneg (by omega)]

/-- `eraseAll` of a value the bag holds: the node is unlinked and its whole
count returned. -/
theorem Bag.eraseAll_found {α : Type} [DecidableEq α] (b : Bag α) (v : α)
    (hmem : v ∈ b.m_head.map (fun n => n.m_value)) :
    b.eraseAll v =
      (Bag.firstCount v b.m_head,
        { b with
          m_head := b.m_head.eraseIdx (Bag.findFrom v b.m_head),
          m_uniqueSize := b.m_uniqueSize - 1,
          m_size := b.m_size - Bag.firstCount v b.m_head,
          m_current := none }) := by
  unfold Bag.eraseAll
  rw [Bag.doErase_eq, if_pos hmem]
  simp

/-- `erase` of a value the bag holds returns 1 and takes 1 off the size; the
node is decremented when it counts more than one item and unlinked
otherwise. -/
theorem Bag.erase_found {α : Type} [DecidableEq α] (b : Bag α) (v : α)
    (hmem : v ∈ b.m_head.map (fun n => n.m_value)) :
    (b.erase v).1 = 1 ∧ (b.erase v).2.m_size = b.m_size - 1 ∧
    ((Bag.firstCount v b.m_head > 1 ∧
        (b.erase v).2.m_head =
          Bag.modifyCount (fun k => k - 1) b.m_head (Bag.findFrom v b.m_head)) ∨
      (¬ Bag.firstCount v b.m_head > 1 ∧
        (b.erase v).2.m_head = b.m_head.eraseIdx (Bag.findFrom v b.m_head))) := by
  unfold Bag.erase
  rw [Bag.doErase_eq, if_pos hmem]
  by_cases h1 : Bag.firstCount v b.m_head > 1
  · rw [if_pos ⟨rfl, h1⟩]
    exact ⟨rfl, rfl, Or.inl ⟨h1, rfl⟩⟩
  · rw [if_neg (fun h => h1 h.2)]
    exact ⟨rfl, rfl, Or.inr ⟨h1, rfl⟩⟩


/-! ## Bag: every operation keeps the representation invariant -/

theorem Bag.copy_wellFormed {α : Type} (b : Bag α) (h : b.wellFormed) :
    (Bag.copy b).wellFormed := by
  have hh : (Bag.copy b).m_head = b.m_head := Bag.copy_m_head b
  unfold Bag.wellFormed
  rw [hh]
  exact h

theorem Bag.swap_wellFormed {α : Type} (b other : Bag α) (h : b.wellFormed)
    (ho : other.wellFormed) :
    (Bag.swap b other).1.wellFormed ∧ (Bag.swap b other).2.wellFormed :=
  ⟨ho, h⟩

/-- The store `combine` leaves: `b2` with its iteration at the end, then
`result` replaced by the bag built. -/
theorem combine_eq {α : Type} [DecidableEq α] (s : BagStore α) (b1 b2 result : Nat) :
    combine s b1 b2 result =
      (s.set b2 { s b2 with m_current := some (s b2).m_head.length }).set result
        (Bag.swap ((s.set b2 { s b2 with m_current := some (s b2).m_head.length }) result)
          ((s b2).m_head.foldl
            (fun r n => r.insertTimes n.m_value ((fun _ c => c.toNat) n.m_value n.m_count))
            (Bag.copy (s b1)))).1 := by
  have hstart : (s.set b2 (s b2).start) b2 = { s b2 with m_current := some 0 } :=
    BagStore.set_same s b2 _
  have hlen : ((s.set b2 (s b2).start) b2).m_head.length = (s b2).m_head.length := by
    rw [hstart]
  have hloop := combineLoop_eq b2 (s b2) (s b2).m_head.length 0 (s.set b2 (s b2).start)
    (Bag.copy (s b1)) hstart (Nat.zero_le _) (by omega)
  unfold combine
  simp only []
  rw [hlen, hloop, BagStore.set_set, List.drop_zero]

/-- The store `subtract` leaves: `b1` with its iteration at the end, then
`result` replaced by the bag built. -/
theorem subtract_eq {α : Type} [DecidableEq α] (s : BagStore α) (b1 b2 result : Nat) :
    subtract s b1 b2 result =
      (s.set b1 { s b1 with m_current := some (s b1).m_head.length }).set result
        (Bag.swap ((s.set b1 { s b1 with m_current := some (s b1).m_head.length }) result)
          ((s b1).m_head.foldl
            (fun r n => r.insertTimes n.m_value
              ((fun v c => (c - Bag.firstCount v (s b2).m_head).toNat) n.m_value n.m_count))
            (Bag.new : Bag α))).1 := by
  have hstart : (s.set b1 (s b1).start) b1 = { s b1 with m_current := some 0 } :=
    BagStore.set_same s b1 _
  have hlen : ((s.set b1 (s b1).start) b1).m_head.length = (s b1).m_head.length := by
    rw [hstart]
  have h2 : ((s.set b1 (s b1).start) b2).m_head = (s b2).m_head := by
    by_cases hb : b2 = b1
    · subst hb
      rw [hstart]
    · simp [BagStore.set, hb]
  have hloop := subtractLoop_eq b1 b2 (s b1) (s b2).m_head (s b1).m_head.length 0
    (s.set b1 (s b1).start) Bag.new hstart h2 (Nat.zero_le _) (by omega)
  unfold subtract
  simp only []
  rw [hlen, hloop, BagStore.set_set, List.drop_zero]

theorem BagStore.set_wellFormed {α : Type} (s : BagStore α) (i : Nat) (b : Bag α)
    (hs : ∀ j, (s j).wellFormed) (hb : b.wellFormed) : ∀ j, ((s.set i b) j).wellFormed := by
  intro j
  by_cases h : j = i
  · simp only [BagStore.set, h, if_true]
    exact hb
  · simp only [BagStore.set, h, if_false]
    exact hs j

/-- `combine` keeps every bag of the store well-formed. -/
theorem combine_wellFormed {α : Type} [DecidableEq α] (s : BagStore α) (b1 b2 result : Nat)
    (hs : ∀ j, (s j).wellFormed) : ∀ j, ((combine s b1 b2 result) j).wellFormed := by
  rw [combine_eq]
  have h1 : ∀ j, ((s.set b2 { s b2 with m_current := some (s b2).m_head.length }) j).wellFormed :=
    BagStore.set_wellFormed s b2 _ hs (hs b2)
  exact BagStore.set_wellFormed _ result _ h1
    (Bag.swap_wellFormed _ _ (h1 result)
      (Bag.pour_wellFormed (fun _ c => c.toNat) (s b2).m_head _
        (Bag.copy_wellFormed _ (hs b1)))).1

/-- `subtract` keeps every bag of the store well-formed. -/
theorem subtract_wellFormed {α : Type} [DecidableEq α] (s : BagStore α) (b1 b2 result : Nat)
    (hs : ∀ j, (s j).wellFormed) : ∀ j, ((subtract s b1 b2 result) j).wellFormed := by
  rw [subtract_eq]
  have h1 : ∀ j, ((s.set b1 { s b1 with m_current := some (s b1).m_head.length }) j).wellFormed :=
    BagStore.set_wellFormed s b1 _ hs (hs b1)
  exact BagStore.set_wellFormed _ result _ h1
    (Bag.swap_wellFormed _ _ (h1 result)
      (Bag.pour_wellFormed (fun v c => (c - Bag.firstCount v (s b2).m_head).toNat)
        (s b1).m_head _ Bag.new_wellFormed)).1
/-! ## The claims on `bag.h` -/

/-- C11: for the bags at any three addresses, aliased or not, with `b2`
well-formed: after `combine(b1, b2, result)` the count of every value in
`result` is its count in `b1` plus its count in `b2` as they were before the
call, and `result.size()` is `b1.size() + b2.size()`, whatever `result` held. -/
theorem combine_counts {α : Type} [DecidableEq α] (s : BagStore α) (b1 b2 result : Nat)
    (h2 : (s b2).wellFormed) :
    (∀ v : α, ((combine s b1 b2 result) result).count v = (s b1).count v + (s b2).count v) ∧
    ((combine s b1 b2 result) result).size = (s b1).size + (s b2).size := by
  obtain ⟨hnd, hpos, _, hs⟩ := h2
  have hres := combine_result s b1 b2 result
  constructor
  · intro v
    rw [Bag.count_eq_firstCount, Bag.count_eq_firstCount, Bag.count_eq_firstCount, hres.1,
      Bag.pour_firstCount (fun _ c => c.toNat) v (s b2).m_head hnd, Bag.copy_m_head]
    by_cases hm : v ∈ (s b2).m_head.map (fun n => n.m_value)
    · have := Bag.firstCount_pos_of_mem v (s b2).m_head hpos hm
      rw [if_pos hm, Int.toNat_of_nonneg (by omega)]
    · rw [if_neg hm, Bag.firstCount_of_not_mem v (s b2).m_head hm]
  · unfold Bag.size
    rw [hres.2, Bag.pour_size (fun _ c => c.toNat), Bag.sum_toNat_counts _ hpos, hs]
    rfl

/-- C11 on the two spice bags, with `result` the same bag as `b2`: "cumin"
occurs 3 + 1 times and the size is 4 + 3. -/
theorem combine_counts_witness :
    ((combine spiceStore 0 1 1) 1).count "cumin" = 3 + 1 ∧
    ((combine spiceStore 0 1 1) 1).size = 4 + 3 :=
  ⟨(combine_counts spiceStore 0 1 1 (by decide)).1 "cumin",
    (combine_counts spiceStore 0 1 1 (by decide)).2⟩

/-- C12: for the bags at any three addresses, aliased or not, with `b1` and
`b2` well-formed, and every value `v` with `n1` occurrences in `b1` and `n2` in
`b2` before the call: after `subtract(b1, b2, result)` the count of `v` in
`result` is `n1 - n2` if `n1 >= n2`, and `v` does not occur in `result` (count
0, `contains` false) if `n1 <= n2`. -/
theorem subtract_counts {α : Type} [DecidableEq α] (s : BagStore α) (b1 b2 result : Nat)
    (h1 : (s b1).wellFormed) (h2 : (s b2).wellFormed) (v : α) :
    ((s b2).count v ≤ (s b1).count v →
      ((subtract s b1 b2 result) result).count v = (s b1).count v - (s b2).count v) ∧
    ((s b1).count v ≤ (s b2).count v →
      ((subtract s b1 b2 result) result).count v = 0 ∧
      ((subtract s b1 b2 result) result).contains v = false) := by
  have hres := subtract_result s b1 b2 result
  have hn2 := Bag.firstCount_nonneg v (s b2) h2
  have hcount : ((subtract s b1 b2 result) result).count v =
      if v ∈ (s b1).m_head.map (fun n => n.m_value) then
        (((Bag.firstCount v (s b1).m_head - Bag.firstCount v (s b2).m_head).toNat : Nat) : Int)
      else 0 := by
    rw [Bag.count_eq_firstCount, hres,
      Bag.pour_firstCount (fun v c => (c - Bag.firstCount v (s b2).m_head).toNat) v
        (s b1).m_head h1.1]
    simp [Bag.new, Bag.firstCount]
  rw [Bag.count_eq_firstCount (s b1), Bag.count_eq_firstCount (s b2), hcount]
  constructor
  · intro hle
    by_cases hm : v ∈ (s b1).m_head.map (fun n => n.m_value)
    · rw [if_pos hm, Int.toNat_of_nonneg (by omega)]
    · rw [if_neg hm]
      rw [Bag.firstCount_of_not_mem v (s b1).m_head hm] at hle ⊢
      omega
  · intro hle
    have hzero : (Bag.firstCount v (s b1).m_head - Bag.firstCount v (s b2).m_head).toNat = 0 :=
      Int.toNat_eq_zero.mpr (by omega)
    constructor
    · rw [hzero]
      simp
    · cases hc : ((subtract s b1 b2 result) result).contains v with
      | false => rfl
      | true =>
        exfalso
        rw [Bag.contains_iff, hres,
          Bag.pour_mem (fun v c => (c - Bag.firstCount v (s b2).m_head).toNat) v
            (s b1).m_head h1.1] at hc
        rcases hc with hc | ⟨_, hc⟩
        · simp [Bag.new] at hc
        · have hc' : 0 < (Bag.firstCount v (s b1).m_head -
              Bag.firstCount v (s b2).m_head).toNat := hc
          omega

/-- C12 on the two spice bags, with `result` the same bag as `b1`: "cumin",
3 times in `b1` and once in `b2`, occurs 3 - 1 times; "turmeric", once in `b1`
and twice in `b2`, does not occur. -/
theorem subtract_counts_witness :
    ((subtract spiceStore 0 1 0) 0).count "cumin" = 3 - 1 ∧
    ((subtract spiceStore 0 1 0) 0).count "turmeric" = 0 ∧
    ((subtract spiceStore 0 1 0) 0).contains "turmeric" = false :=
  ⟨(subtract_counts spiceStore 0 1 0 (by decide) (by decide) "cumin").1 (by decide),
    (subtract_counts spiceStore 0 1 0 (by decide) (by decide) "turmeric").2 (by decide)⟩

/-- C13: for every well-formed bag and value `v` with count `n`: `erase(v)`
returns 1 if `n > 0` and 0 otherwise and leaves `count(v)` at `n` minus the
returned number; `eraseAll(v)` returns `n` and leaves `count(v) = 0` and
`contains(v)` false; both leave the count of every other value unchanged and
decrease `size()` by exactly the returned number. -/
theorem Bag.erase_effect {α : Type} [DecidableEq α] (b : Bag α) (v : α)
    (hwf : b.wellFormed) :
    (b.erase v).1 = (if b.count v > 0 then 1 else 0) ∧
    (b.erase v).2.count v = b.count v - (b.erase v).1 ∧
    (b.eraseAll v).1 = b.count v ∧
    (b.eraseAll v).2.count v = 0 ∧
    (b.eraseAll v).2.contains v = false ∧
    (∀ w, w ≠ v →
      (b.erase v).2.count w = b.count w ∧ (b.eraseAll v).2.count w = b.count w) ∧
    (b.erase v).2.size = b.size - (b.erase v).1 ∧
    (b.eraseAll v).2.size = b.size - (b.eraseAll v).1 := by
  obtain ⟨hnd, hpos, _, _⟩ := hwf
  by_cases hmem : v ∈ b.m_head.map (fun n => n.m_value)
  · have hfc := Bag.firstCount_pos_of_mem v b.m_head hpos hmem
    have hall := Bag.eraseAll_found b v hmem
    have hallHead : (b.eraseAll v).2.m_head = b.m_head.eraseIdx (Bag.findFrom v b.m_head) := by
      rw [hall]
    have hallSize : (b.eraseAll v).2.m_size = b.m_size - Bag.firstCount v b.m_head := by
      rw [hall]
    have hallRet : (b.eraseAll v).1 = Bag.firstCount v b.m_head := by
      rw [hall]
    have hgone : (b.eraseAll v).2.contains v = false := by
      cases hc : (b.eraseAll v).2.contains v with
      | false => rfl
      | true =>
        rw [Bag.contains_iff, hallHead, Bag.values_erase_find] at hc
        exact absurd hc (List.Nodup.not_mem_erase hnd)
    have hone := Bag.erase_found b v hmem
    have honeRet : (b.erase v).1 = 1 := hone.1
    have honeSize : (b.erase v).2.m_size = b.m_size - 1 := hone.2.1
    have honeCount : ∀ w, Bag.firstCount w (b.erase v).2.m_head =
        if v = w then Bag.firstCount w b.m_head - 1 else Bag.firstCount w b.m_head := by
      intro w
      rcases hone.2.2 with ⟨h1, hh⟩ | ⟨h1, hh⟩
      · rw [hh, Bag.firstCount_modify_find, if_pos hmem]
      · rw [hh, Bag.firstCount_erase_find v w b.m_head hnd]
        by_cases hvw : v = w
        · subst hvw
          rw [if_pos rfl, if_pos rfl]
          omega
        · rw [if_neg hvw, if_neg hvw]
    simp only [Bag.count_eq_firstCount, Bag.size]
    refine ⟨?_, ?_, hallRet, ?_, hgone, ?_, ?_, ?_⟩
    · rw [honeRet, if_pos (by omega)]
    · rw [honeCount, honeRet, if_pos rfl]
    · rw [hallHead, Bag.firstCount_erase_find v v b.m_head hnd, if_pos rfl]
    · intro w hw
      have hw' : ¬ v = w := fun e => hw e.symm
      rw [honeCount, if_neg hw', hallHead, Bag.firstCount_erase_find v w b.m_head hnd,
        if_neg hw']
      exact ⟨rfl, rfl⟩
    · rw [honeSize, honeRet]
    · rw [hallSize, hallRet]
  · have hz := Bag.firstCount_of_not_mem v b.m_head hmem
    have hnot : b.contains v = false := by
      cases hc : b.contains v with
      | false => rfl
      | true => exact absurd ((Bag.contains_iff b v).mp hc) hmem
    have h0 : ∀ all, b.doErase v all = (0, b) := fun all => by
      rw [Bag.doErase_eq, if_neg hmem]
    simp only [Bag.count_eq_firstCount, Bag.size, Bag.erase, Bag.eraseAll, h0, hz, hnot]
    simp

/-- C13 on the spice bag: `erase("cumin")` returns 1, `eraseAll("cumin")`
returns 3, the count of "cumin" there. -/
theorem Bag.erase_effect_witness :
    (spiceBag.erase "cumin").1 = (if spiceBag.count "cumin" > 0 then 1 else 0) ∧
    (spiceBag.eraseAll "cumin").1 = 3 ∧
    (spiceBag.eraseAll "cumin").2.contains "cumin" = false :=
  have h := Bag.erase_effect spiceBag "cumin" (by decide)
  ⟨h.1, h.2.2.1, h.2.2.2.2.1⟩

/-- C14: for every bag and value `v`, `insert(v)` returns true, increases
`count(v)` by exactly 1, leaves the count of every other value unchanged,
increases `size()` by 1, and increases `uniqueSize()` by 1 exactly when `v` was
not in the bag before (and leaves it unchanged when it was). -/
theorem Bag.insert_effect {α : Type} [DecidableEq α] (b : Bag α) (v : α) :
    (b.insert v).1 = true ∧
    (b.insert v).2.count v = b.count v + 1 ∧
    (∀ w, w ≠ v → (b.insert v).2.count w = b.count w) ∧
    (b.insert v).2.size = b.size + 1 ∧
    ((b.insert v).2.uniqueSize = b.uniqueSize + 1 ↔ b.contains v = false) ∧
    (b.contains v = true → (b.insert v).2.uniqueSize = b.uniqueSize) := by
  refine ⟨rfl, ?_, ?_, Bag.insert_size b v, ?_, ?_⟩
  · rw [Bag.count_eq_firstCount, Bag.count_eq_firstCount, Bag.insert_firstCount, if_pos rfl]
  · intro w hw
    have hw' : ¬ v = w := fun e => hw e.symm
    rw [Bag.count_eq_firstCount, Bag.count_eq_firstCount, Bag.insert_firstCount, if_neg hw']
    omega
  · unfold Bag.uniqueSize
    rw [Bag.insert_uniqueSize]
    cases b.contains v <;> simp
  · intro hc
    unfold Bag.uniqueSize
    rw [Bag.insert_uniqueSize, hc]
    simp
